import Mathlib

/-!
Shallow embedding of `src/api/msam/chalicelib/cloudwatch.py`, the CloudWatch
alarm subscription registry of the MSAM application.

Modelling conventions:
* A DynamoDB item (and a Python dict in general) is an insertion-ordered
  association list; `dictSet` mirrors Python's `d[k] = v` (update in place,
  else append) and `dictPop` mirrors `d.pop(k, None)`.
* The alarms table is a list of items; `put_item` replaces the item with the
  same primary key `(RegionAlarmName, ResourceArn)` (full-item overwrite) and
  `delete_item` removes by key, as DynamoDB does.
* Query results arrive in pages; a paginated operation is a fold of the
  per-page body (which the source duplicates verbatim for the first and the
  continuation pages) over the list of pages.  Store-level operations use the
  single-page pagination of the full query result; pagination invariance is
  proved separately.
* `ClientError` (the only exception the source catches) is injected
  explicitly: write loops take the index of the first failing store call,
  read loops take the per-call outcomes.  Exceptions the source does not
  catch (`IndexError` from a missing `:`; `ValueError` from `strptime`)
  surface as `Option.none` results.
* Python strings are Lean `String`s; `unquote` models `urllib.parse.unquote`
  at the code-point level (faithful for ASCII percent-escapes; multi-byte
  UTF-8 recombination is not modelled).  Python's `sorted` on strings is
  code-point lexicographic, modelled by `pyStrLe`/`sortStrings`.
-/

namespace Cloudwatch

/-- Attribute values stored in items: this module only ever writes strings and
integers (`StateUpdated`, `Updated`). -/
inductive AttrVal where
| str : String → AttrVal
| int : Int → AttrVal
deriving DecidableEq, Repr

/-- A DynamoDB item / Python dict with string keys. -/
abbrev Item := List (String × AttrVal)

/-- Python `d[key]` / `d.get(key)`: the value at the first matching key. -/
def dictGet {β : Type} : List (String × β) → String → Option β
| [], _ => none
| (k, v) :: rest, key => if k = key then some v else dictGet rest key

/-- Python `d[key] = v`: replace the value in place if the key is present,
otherwise append the binding. -/
def dictSet {β : Type} (d : List (String × β)) (key : String) (v : β) :
    List (String × β) :=
if key ∈ d.map Prod.fst then d.map (fun p => if p.1 = key then (key, v) else p)
else d ++ [(key, v)]

/-- Python `d.pop(key, None)` (keeping only the resulting dict). -/
def dictPop {β : Type} (d : List (String × β)) (key : String) :
    List (String × β) :=
d.filter (fun p => decide (p.1 ≠ key))

/-- String-valued attribute access. -/
def item_getStr (it : Item) (key : String) : Option String :=
match dictGet it key with
| some (.str s) => some s
| _ => none

/-- String-valued attribute access with `""` for a missing attribute. -/
def getStrD (it : Item) (key : String) : String := (item_getStr it key).getD ""

/-- The characters before and after the first `':'`, when there is one. -/
def splitFirstAux : List Char → Option (List Char × List Char)
| [] => none
| c :: rest =>
  if c = ':' then some ([], rest)
  else (splitFirstAux rest).map (fun p => (c :: p.1, p.2))

/-- Python `s.split(':', maxsplit=1)`. -/
def split_maxsplit1 (s : String) : List String :=
match splitFirstAux s.data with
| none => [s]
| some (a, b) => [⟨a⟩, ⟨b⟩]

/-- Python `s.split(":")`, on the character list. -/
def splitColonAll : List Char → List (List Char)
| [] => [[]]
| c :: rest =>
  if c = ':' then [] :: splitColonAll rest
  else
    match splitColonAll rest with
    | [] => [[c]]
    | g :: gs => (c :: g) :: gs

/-- Python `s.split(":")`. -/
def pySplitColon (s : String) : List String :=
(splitColonAll s.data).map (fun cs => ⟨cs⟩)

/-- Value of a hexadecimal digit character. -/
def hexDigit (c : Char) : Option Nat :=
if '0' ≤ c ∧ c ≤ '9' then some (c.toNat - '0'.toNat)
else if 'a' ≤ c ∧ c ≤ 'f' then some (c.toNat - 'a'.toNat + 10)
else if 'A' ≤ c ∧ c ≤ 'F' then some (c.toNat - 'A'.toNat + 10)
else none

/-- Percent-decoding of `urllib.parse.unquote` on the character list: a `%`
followed by two hex digits becomes the character of that code point, anything
else is kept (multi-byte UTF-8 recombination is not modelled). -/
def unquoteChars : List Char → List Char
| '%' :: a :: b :: rest =>
  (match hexDigit a, hexDigit b with
  | some x, some y => Char.ofNat (16 * x + y) :: unquoteChars rest
  | _, _ => '%' :: unquoteChars (a :: b :: rest))
| c :: rest => c :: unquoteChars rest
| [] => []

/-- Python `urllib.parse.unquote`. -/
def unquote (s : String) : String := ⟨unquoteChars s.data⟩

/-- Python `set.add` on a duplicate-free accumulation list. -/
def setInsert (l : List String) (x : String) : List String :=
if x ∈ l then l else l ++ [x]

/-- Code-point lexicographic comparison, as Python compares strings. -/
def lexLe : List Char → List Char → Bool
| [], _ => true
| _ :: _, [] => false
| a :: as, b :: bs => if a < b then true else if b < a then false else lexLe as bs

/-- Python's `<=` on strings. -/
def pyStrLe (a b : String) : Bool := lexLe a.data b.data

/-- Insert into a `pyStrLe`-sorted list, keeping it sorted. -/
def insertSorted (x : String) : List String → List String
| [] => [x]
| y :: ys => if pyStrLe x y then x :: y :: ys else y :: insertSorted x ys

/-- Python `sorted` on a list of strings (an insertion sort; every list this
module sorts has distinct elements, so any correct sort returns the same
list). -/
def sortStrings (l : List String) : List String := l.foldr insertSorted []

/-- The primary key of the alarms table. -/
abbrev StoreKey := String × String

/-- The alarms table. -/
abbrev Store := List Item

/-- The primary key `(RegionAlarmName, ResourceArn)` of an item, when both
attributes are present as strings. -/
def keyOf (it : Item) : Option StoreKey :=
match item_getStr it "RegionAlarmName", item_getStr it "ResourceArn" with
| some r, some a => some (r, a)
| _, _ => none

/-- DynamoDB `put_item`: full-item overwrite of the item with the same key. -/
def put_item (store : Store) (it : Item) : Store :=
store.filter (fun o => decide (keyOf o ≠ keyOf it)) ++ [it]

/-- DynamoDB `delete_item` by primary key. -/
def delete_item (store : Store) (k : StoreKey) : Store :=
store.filter (fun o => decide (keyOf o ≠ some k))

/-- The stored item at a primary key. -/
def storeLookup (store : Store) (k : StoreKey) : Option Item :=
(store.filter (fun o => decide (keyOf o = some k))).getLast?

/-- A secondary-index equality query: the stored items whose `attr` attribute
is the string `val`. -/
def queryEq (store : Store) (attr val : String) : List Item :=
store.filter (fun it => decide (item_getStr it attr = some val))

/-- Table well-formedness, guaranteed by DynamoDB for the alarms table: every
item carries its primary-key attributes and keys are unique. -/
def StoreWF (store : Store) : Prop :=
(∀ it ∈ store, (keyOf it).isSome = true) ∧ (store.filterMap keyOf).Nodup

instance : DecidablePred StoreWF := fun s =>
inferInstanceAs
  (Decidable ((∀ it ∈ s, (keyOf it).isSome = true) ∧ (s.filterMap keyOf).Nodup))

/-- The item written by `subscribe_resource_to_alarm` for one resource. -/
def subItem (ran arn : String) : Item :=
[("RegionAlarmName", .str ran), ("ResourceArn", .str arn)]

/-- The per-resource write loop of `subscribe_resource_to_alarm`; `failAt`
injects a `ClientError` on the put with that index, which the source catches
and converts to `False`. -/
def subscribeLoop (store : Store) (ran : String) (failAt : Option Nat) :
    List String → Store × Bool
| [] => (store, true)
| arn :: rest =>
  if failAt = some 0 then (store, false)
  else subscribeLoop (put_item store (subItem ran arn)) ran
    (failAt.map (fun n => n - 1)) rest

/-- API entry point to subscribe one or more nodes to a CloudWatch alarm in a
region: puts a `{RegionAlarmName, ResourceArn}` item per resource. -/
def subscribe_resource_to_alarm (store : Store) (alarm_name region : String)
    (resources : List String) (failAt : Option Nat) : Store × Bool :=
subscribeLoop store (unquote region ++ ":" ++ unquote alarm_name) failAt resources

/-- The per-resource delete loop of `unsubscribe_resource_to_alarm`. -/
def unsubscribeLoop (store : Store) (ran : String) (failAt : Option Nat) :
    List String → Store × Bool
| [] => (store, true)
| arn :: rest =>
  if failAt = some 0 then (store, false)
  else unsubscribeLoop (delete_item store (ran, arn)) ran
    (failAt.map (fun n => n - 1)) rest

/-- API entry point to unsubscribe one or more nodes from a CloudWatch alarm
in a region: deletes the matching record per resource by primary key. -/
def unsubscribe_resource_to_alarm (store : Store) (alarm_name region : String)
    (resources : List String) (failAt : Option Nat) : Store × Bool :=
unsubscribeLoop store (unquote region ++ ":" ++ unquote alarm_name) failAt resources

/-- The page body of `subscribers_to_alarm`: add each item's `ResourceArn` to
the accumulated set. -/
def subscribersPage (acc : List String) (items : List Item) : List String :=
items.foldl (fun a it => setInsert a (getStrD it "ResourceArn")) acc

/-- `subscribers_to_alarm` on an explicit pagination of the query result. -/
def subscribers_pages (pages : List (List Item)) : List String :=
sortStrings (pages.foldl subscribersPage [])

/-- API entry point to return subscribed nodes of a CloudWatch alarm in a
region: a `RegionAlarmName` index query accumulated into a set and sorted. -/
def subscribers_to_alarm (store : Store) (alarm_name region : String) :
    List String :=
subscribers_pages
  [queryEq store "RegionAlarmName" (unquote region ++ ":" ++ unquote alarm_name)]

/-- The value dict `{"Region": region, "AlarmName": name}` built by
`all_subscribed_alarms`. -/
structure RegionAlarm where
  Region : String
  AlarmName : String
deriving DecidableEq, Repr

/-- The `(split_attr[0], split_attr[1])` pair of
`RegionAlarmName.split(':', maxsplit=1)`; `none` when the split has a single
element, in which case the source's `split_attr[1]` raises an uncaught
`IndexError`. -/
def regionName (ran : String) : Option (String × String) :=
match split_maxsplit1 ran with
| [r, n] => some (r, n)
| _ => none

/-- The page body of `all_subscribed_alarms`:
`alarms[item["RegionAlarmName"]] = {"Region": region, "AlarmName": name}`,
aborting on a failed key split. -/
def allSubscribedPage (acc : List (String × RegionAlarm)) :
    List Item → Option (List (String × RegionAlarm))
| [] => some acc
| it :: rest =>
  match regionName (getStrD it "RegionAlarmName") with
  | none => none
  | some (r, n) =>
    allSubscribedPage (dictSet acc (getStrD it "RegionAlarmName") ⟨r, n⟩) rest

/-- The scan-pagination loop of `all_subscribed_alarms`. -/
def allSubscribedPages :
    List (List Item) → List (String × RegionAlarm) →
      Option (List (String × RegionAlarm))
| [], acc => some acc
| p :: ps, acc =>
  match allSubscribedPage acc p with
  | none => none
  | some acc2 => allSubscribedPages ps acc2

/-- Python `for key in sorted(d): results.append(d[key])`. -/
def dictSortedValues {β : Type} (d : List (String × β)) : List β :=
(sortStrings (d.map Prod.fst)).filterMap (dictGet d)

/-- API entry point to return a unique list of all subscribed alarms in the
database, on an explicit pagination of the table scan; `none` models the
uncaught `IndexError` on a `RegionAlarmName` without a colon. -/
def all_subscribed_alarms (pages : List (List Item)) :
    Option (List RegionAlarm) :=
(allSubscribedPages pages []).map dictSortedValues

/-- `all_subscribed_alarms` reading the whole table as one scan page. -/
def all_subscribed_alarms_store (store : Store) : Option (List RegionAlarm) :=
all_subscribed_alarms [store]

/-- The per-item reshaping of `alarms_for_subscriber`: add `Region` and
`AlarmName` from the key split, then drop `ResourceArn`, `RegionAlarmName`
and `Updated`. -/
def alarmsForItem (it : Item) (r n : String) : Item :=
let it1 := dictSet it "Region" (.str r)
let it2 := dictSet it1 "AlarmName" (.str n)
let it3 := dictPop it2 "ResourceArn"
let it4 := dictPop it3 "RegionAlarmName"
dictPop it4 "Updated"

/-- The page body of `alarms_for_subscriber`. -/
def alarmsForPage (acc : List (String × Item)) :
    List Item → Option (List (String × Item))
| [] => some acc
| it :: rest =>
  match regionName (getStrD it "RegionAlarmName") with
  | none => none
  | some (r, n) =>
    alarmsForPage (dictSet acc (getStrD it "RegionAlarmName") (alarmsForItem it r n)) rest

/-- The query-pagination loop of `alarms_for_subscriber`. -/
def alarmsForPages :
    List (List Item) → List (String × Item) → Option (List (String × Item))
| [], acc => some acc
| p :: ps, acc =>
  match alarmsForPage acc p with
  | none => none
  | some acc2 => alarmsForPages ps acc2

/-- API entry point to return all alarms subscribed to by a node, on an
explicit pagination of the `ResourceArn` index query. -/
def alarms_for_subscriber (pages : List (List Item)) : Option (List Item) :=
(alarmsForPages pages []).map dictSortedValues

/-- `alarms_for_subscriber` over the store, single-page pagination. -/
def alarms_for_subscriber_store (store : Store) (resource_arn : String) :
    Option (List Item) :=
alarms_for_subscriber [queryEq store "ResourceArn" (unquote resource_arn)]

/-- The `{"ResourceArn": ..., "AlarmCount": ...}` dict value of
`subscribed_with_state`. -/
structure SWSEntry where
  ResourceArn : String
  AlarmCount : Nat
deriving DecidableEq, Repr

/-- One item of `subscribed_with_state`: bump the per-resource counter, or
start it at 1. -/
def swsStep (d : List (String × SWSEntry)) (it : Item) :
    List (String × SWSEntry) :=
let arn := getStrD it "ResourceArn"
match dictGet d arn with
| some entry => dictSet d arn ⟨entry.ResourceArn, entry.AlarmCount + 1⟩
| none => dictSet d arn ⟨arn, 1⟩

/-- The page body of `subscribed_with_state`. -/
def swsPage (d : List (String × SWSEntry)) (items : List Item) :
    List (String × SWSEntry) :=
items.foldl swsStep d

/-- `subscribed_with_state` on an explicit pagination of the `StateValue`
index query: `list(resources.values())`, in insertion order. -/
def subscribed_with_state_pages (pages : List (List Item)) : List SWSEntry :=
(pages.foldl swsPage []).map Prod.snd

/-- API entry point to return nodes subscribed to alarms in a given alarm
state. -/
def subscribed_with_state (store : Store) (alarm_state : String) : List SWSEntry :=
subscribed_with_state_pages [queryEq store "StateValue" (unquote alarm_state)]

/-- The distinct elements of a list, in order of first occurrence. -/
def firstDedup (l : List String) : List String := l.foldl setInsert []

/-- The last item of the list whose `RegionAlarmName` attribute is `ran`: the
survivor of the last-write-wins dedup of `alarms_for_subscriber`. -/
def lastItemWithRan : List Item → String → Option Item
| [], _ => none
| it :: rest, ran =>
  match lastItemWithRan rest ran with
  | some x => some x
  | none => if getStrD it "RegionAlarmName" = ran then some it else none

/-- A boto3 `ClientError`, identified by its message. -/
structure ClientError where
  msg : String
deriving DecidableEq, Repr

/-- Value of a decimal digit character. -/
def digitVal (c : Char) : Option Nat :=
if '0' ≤ c ∧ c ≤ '9' then some (c.toNat - '0'.toNat) else none

/-- Exactly `n` more decimal digits, accumulating their value. -/
def readDigits : Nat → Nat → List Char → Option (Nat × List Char)
| 0, acc, cs => some (acc, cs)
| Nat.succ k, acc, cs =>
  match cs with
  | [] => none
  | c :: rest =>
    match digitVal c with
    | none => none
    | some v => readDigits k (10 * acc + v) rest

/-- Consume one expected character. -/
def expectChar (c : Char) : List Char → Option (List Char)
| [] => none
| x :: rest => if x = c then some rest else none

/-- Up to `n` leading decimal digits. -/
def takeUpTo : Nat → List Char → List Nat × List Char
| 0, cs => ([], cs)
| Nat.succ _, [] => ([], [])
| Nat.succ k, c :: rest =>
  match digitVal c with
  | none => ([], c :: rest)
  | some v =>
    let p := takeUpTo k rest
    (v :: p.1, p.2)

/-- `%f`: one to six digits, right-padded to microseconds. -/
def readMicro (cs : List Char) : Option (Nat × List Char) :=
match takeUpTo 6 cs with
| ([], _) => none
| (ds, rest) =>
  some ((ds.foldl (fun a d => 10 * a + d) 0) * 10 ^ (6 - ds.length), rest)

/-- The `%z` UTC offset in seconds; the forms modelled are `Z`, `±HHMM`
and `±HH:MM`. -/
def readTZ (cs : List Char) : Option Int :=
match cs with
| ['Z'] => some 0
| s :: rest =>
  if s = '+' ∨ s = '-' then
    match readDigits 2 0 rest with
    | some (h, rest2) =>
      match readDigits 2 0 (if rest2.head? = some ':' then rest2.tail else rest2) with
      | some (m, []) =>
        if h ≤ 23 ∧ m ≤ 59 then
          some ((if s = '-' then -1 else 1) * (h * 3600 + m * 60))
        else none
      | _ => none
    | none => none
  else none
| [] => none

/-- Gregorian leap year. -/
def isLeap (y : Nat) : Bool := (y % 4 = 0 ∧ y % 100 ≠ 0) ∨ y % 400 = 0

/-- Days in a month of the proleptic Gregorian calendar. -/
def daysInMonth (y m : Nat) : Nat :=
if m = 2 then (if isLeap y then 29 else 28)
else if m = 4 ∨ m = 6 ∨ m = 9 ∨ m = 11 then 30
else 31

/-- Days since 1970-01-01 of a civil date with year ≥ 1 (the civil-from-days
algorithm, over naturals since the year is positive). -/
def daysFromCivil (y m d : Nat) : Int :=
let y2 := if m ≤ 2 then y - 1 else y
let era := y2 / 400
let yoe := y2 % 400
let mp := if m > 2 then m - 3 else m + 9
let doy := (153 * mp + 2) / 5 + d - 1
let doe := yoe * 365 + yoe / 4 - yoe / 100 + doy
(era * 146097 + doe : Int) - 719468

/-- The `%Y-%m-%d` prefix: `(year, month, day, rest)`. -/
def parseDate (cs : List Char) : Option (Nat × Nat × Nat × List Char) :=
(readDigits 4 0 cs).bind fun py =>
(expectChar '-' py.2).bind fun r2 =>
(readDigits 2 0 r2).bind fun pmo =>
(expectChar '-' pmo.2).bind fun r4 =>
(readDigits 2 0 r4).bind fun pd =>
some (py.1, pmo.1, pd.1, pd.2)

/-- The `T%H:%M:%S` part: `(hour, minute, second, rest)`. -/
def parseTime (cs : List Char) : Option (Nat × Nat × Nat × List Char) :=
(expectChar 'T' cs).bind fun r6 =>
(readDigits 2 0 r6).bind fun ph =>
(expectChar ':' ph.2).bind fun r8 =>
(readDigits 2 0 r8).bind fun pmi =>
(expectChar ':' pmi.2).bind fun r10 =>
(readDigits 2 0 r10).bind fun psec =>
some (ph.1, pmi.1, psec.1, psec.2)

/-- The `.%f%z` suffix: `(microseconds, offset seconds)`. -/
def parseFracTZ (cs : List Char) : Option (Nat × Int) :=
(expectChar '.' cs).bind fun r12 =>
(readMicro r12).bind fun pmic =>
(readTZ pmic.2).bind fun off =>
some (pmic.1, off)

/-- Modelling
`int(datetime.datetime.strptime(s, "%Y-%m-%dT%H:%M:%S.%f%z").timestamp())`:
parse the timestamp, convert to epoch seconds, truncate toward zero.  `none`
models the uncaught `ValueError` on a malformed string.  Digit fields are
fixed-width as in the canonical ISO form the notifications carry. -/
def strptimeEpoch (s : String) : Option Int :=
(parseDate s.data).bind fun pd =>
(parseTime pd.2.2.2).bind fun pt =>
(parseFracTZ pt.2.2.2).bind fun pf =>
let y := pd.1
let mo := pd.2.1
let d := pd.2.2.1
let h := pt.1
let mi := pt.2.1
let sec := pt.2.2.1
if 1 ≤ y && 1 ≤ mo && mo ≤ 12 && 1 ≤ d && d ≤ daysInMonth y mo &&
    h ≤ 23 && mi ≤ 59 && sec ≤ 59 then
  let base : Int := daysFromCivil y mo d * 86400 + h * 3600 + mi * 60 + sec - pf.2
  some (if base < 0 && pf.1 != 0 then base + 1 else base)
else none

/-- The JSON alarm payload of a notification
(`json.loads(record["Sns"]["Message"])`), with the fields the source reads;
`TriggerNamespace` is `Trigger.Namespace`. -/
structure AlarmMessage where
  AlarmName : String
  NewStateValue : String
  TriggerNamespace : String
  StateChangeTime : String
deriving DecidableEq, Repr

/-- One SNS record of the Lambda event batch. -/
structure SnsRecord where
  EventSubscriptionArn : String
  message : AlarmMessage
deriving DecidableEq, Repr

/-- The full item `incoming_cloudwatch_alarm` writes for one subscriber. -/
def newAlarmItem (ran arn stateValue ns : String) (stateUpdated updated : Int) :
    Item :=
[("RegionAlarmName", .str ran), ("ResourceArn", .str arn),
 ("StateValue", .str stateValue), ("Namespace", .str ns),
 ("StateUpdated", .int stateUpdated), ("Updated", .int updated)]

/-- The per-subscriber put loop of one notification record: build the item
(evaluating `strptime`, whose failure is an uncaught `ValueError`, hence
`none`) and put it.  `failAt` counts puts across the whole invocation and
injects the `ClientError` the source catches; the `Bool` reports whether it
was raised. -/
def putAlarmItems (ran sv ns sct : String) (updated : Int) :
    Store → Nat → Option Nat → List String → Option (Store × Nat × Bool)
| store, cnt, _, [] => some (store, cnt, false)
| store, cnt, failAt, arn :: rest =>
  match strptimeEpoch sct with
  | none => none
  | some ts =>
    if failAt = some cnt then some (store, cnt, true)
    else putAlarmItems ran sv ns sct updated
      (put_item store (newAlarmItem ran arn sv ns ts updated)) (cnt + 1) failAt rest

/-- The record loop of `incoming_cloudwatch_alarm`: `none` is an uncaught
exception (region index out of range or `strptime` failure); a raised
`ClientError` is caught, abandoning the remaining records, and the source
still returns `True`. -/
def ingestRecords (updated : Int) :
    Store → Nat → Option Nat → List SnsRecord → Option (Store × Bool)
| store, _, _, [] => some (store, true)
| store, cnt, failAt, rec :: rest =>
  match (pySplitColon rec.EventSubscriptionArn)[3]? with
  | none => none
  | some region =>
    let name := rec.message.AlarmName
    let ran := region ++ ":" ++ name
    let subs := subscribers_to_alarm store name region
    match putAlarmItems ran rec.message.NewStateValue rec.message.TriggerNamespace
        rec.message.StateChangeTime updated store cnt failAt subs with
    | none => none
    | some (store2, cnt2, raised) =>
      if raised then some (store2, true)
      else ingestRecords updated store2 cnt2 failAt rest

/-- Standard AWS Lambda entry point for receiving CloudWatch alarm
notifications, over the store model: `updated = int(time.time())` is the
ingestion-time clock, `failAt` the index of the first store put to raise
`ClientError`. -/
def incoming_cloudwatch_alarm (store : Store) (records : List SnsRecord)
    (updated : Int) (failAt : Option Nat) : Option (Store × Bool) :=
ingestRecords updated store 0 failAt records

/-- The `region:name` key a notification record writes (spec-side helper for
the ingestion characterization). -/
def ranOfRec (rec : SnsRecord) : String :=
((pySplitColon rec.EventSubscriptionArn)[3]?).getD "" ++ ":" ++ rec.message.AlarmName

/-- The item content a record writes at key `k` at ingestion time `updated`. -/
def recItem (rec : SnsRecord) (k : StoreKey) (updated : Int) : Item :=
newAlarmItem k.1 k.2 rec.message.NewStateValue rec.message.TriggerNamespace
  ((strptimeEpoch rec.message.StateChangeTime).getD 0) updated

/-- Whether a record overwrites key `k`, given the key set of the store
(ingestion only rewrites keys of existing subscriptions). -/
def writesK (keys0 : List StoreKey) (rec : SnsRecord) (k : StoreKey) : Prop :=
ranOfRec rec = k.1 ∧ k ∈ keys0

instance : ∀ (keys0 : List StoreKey) (rec : SnsRecord) (k : StoreKey),
    Decidable (writesK keys0 rec k) := fun _ _ _ =>
inferInstanceAs (Decidable (_ ∧ _))

/-- The overwrite performed by the last record of the batch that writes key
`k`, if any. -/
def lastWriterItem (keys0 : List StoreKey) (updated : Int) (k : StoreKey) :
    List SnsRecord → Option Item
| [] => none
| rec :: rest =>
  match lastWriterItem keys0 updated k rest with
  | some x => some x
  | none => if writesK keys0 rec k then some (recItem rec k updated) else none

/-- The primary keys of the stored items. -/
def keysList (store : Store) : List StoreKey := store.filterMap keyOf

/-- API entry point to retrieve all pipeline events in a given state.  The
source performs the store query with no try/except around it: the input is
the store call's outcome, and an error outcome is re-raised to the caller
unchanged. -/
def get_cloudwatch_events_state
    (resp : Except ClientError (Option (List Item))) :
    Except ClientError (List Item) :=
match resp with
| .error e => .error e
| .ok r => .ok (r.getD [])

/-- A raw CloudWatch alarm as returned by `describe_alarms`; the
`StateUpdatedTimestamp` datetime is modelled at epoch-second granularity. -/
structure RawAlarm where
  AlarmArn : String
  AlarmName : String
  MetricName : String
  Namespace : String
  StateValue : String
  StateUpdatedTimestamp : Int
deriving DecidableEq, Repr

/-- The reshaped alarm of `filtered_alarm`. -/
structure FilteredAlarm where
  AlarmArn : String
  AlarmName : String
  MetricName : String
  Namespace : String
  StateValue : String
  StateUpdated : Int
deriving DecidableEq, Repr

/-- Restructure a CloudWatch alarm into a simpler form. -/
def filtered_alarm (alarm : RawAlarm) : FilteredAlarm :=
{ AlarmArn := alarm.AlarmArn, AlarmName := alarm.AlarmName,
  MetricName := alarm.MetricName, Namespace := alarm.Namespace,
  StateValue := alarm.StateValue, StateUpdated := alarm.StateUpdatedTimestamp }

/-- One `describe_alarms` response: the optional `MetricAlarms` list and
whether a `NextToken` is present. -/
abbrev CWResponse := Except ClientError (Option (List RawAlarm) × Bool)

/-- The describe/paginate loop of `get_cloudwatch_alarms_region`: a raised
`ClientError` is caught and the alarms collected so far are returned. -/
def cwAlarmsLoop (acc : List FilteredAlarm) :
    List CWResponse → List FilteredAlarm
| [] => acc
| .error _ :: _ => acc
| .ok (page, hasNext) :: rest =>
  let acc2 := acc ++ (page.getD []).map filtered_alarm
  if hasNext then cwAlarmsLoop acc2 rest else acc2

/-- API entry point to retrieve all CloudWatch alarms for a given region,
driven by the sequence of service responses. -/
def get_cloudwatch_alarms_region (responses : List CWResponse) :
    List FilteredAlarm :=
cwAlarmsLoop [] responses

/-- The query/paginate loop of `subscribers_to_alarm` with the store-call
outcomes explicit: a raised `ClientError` on any call is caught and the set
collected so far is kept. -/
def subscribersLoopE (acc : List String) :
    List (Except ClientError (List Item)) → List String
| [] => acc
| .error _ :: _ => acc
| .ok items :: rest => subscribersLoopE (subscribersPage acc items) rest

/-- `subscribers_to_alarm` driven by the sequence of store responses:
the collected subscribers are sorted after the (possibly error-terminated)
loop, as in the source. -/
def subscribers_to_alarm_responses
    (responses : List (Except ClientError (List Item))) : List String :=
sortStrings (subscribersLoopE [] responses)

/-- The query/paginate loop of `subscribed_with_state` with the store-call
outcomes explicit. -/
def swsLoopE (d : List (String × SWSEntry)) :
    List (Except ClientError (List Item)) → List (String × SWSEntry)
| [] => d
| .error _ :: _ => d
| .ok items :: rest => swsLoopE (swsPage d items) rest

/-- `subscribed_with_state` driven by the sequence of store responses. -/
def subscribed_with_state_responses
    (responses : List (Except ClientError (List Item))) : List SWSEntry :=
(swsLoopE [] responses).map Prod.snd

/-- The query/paginate loop of `alarms_for_subscriber` with the store-call
outcomes explicit: `ClientError` is caught (the dict so far is kept), while
the uncaught index error of a colon-less key still aborts (`none`). -/
def alarmsForLoopE (acc : List (String × Item)) :
    List (Except ClientError (List Item)) → Option (List (String × Item))
| [] => some acc
| .error _ :: _ => some acc
| .ok items :: rest =>
  match alarmsForPage acc items with
  | none => none
  | some acc2 => alarmsForLoopE acc2 rest

/-- `alarms_for_subscriber` driven by the sequence of store responses. -/
def alarms_for_subscriber_responses
    (responses : List (Except ClientError (List Item))) : Option (List Item) :=
(alarmsForLoopE [] responses).map dictSortedValues

/-- The scan/paginate loop of `all_subscribed_alarms` with the store-call
outcomes explicit. -/
def allSubscribedLoopE (acc : List (String × RegionAlarm)) :
    List (Except ClientError (List Item)) → Option (List (String × RegionAlarm))
| [] => some acc
| .error _ :: _ => some acc
| .ok items :: rest =>
  match allSubscribedPage acc items with
  | none => none
  | some acc2 => allSubscribedLoopE acc2 rest

/-- `all_subscribed_alarms` driven by the sequence of store responses. -/
def all_subscribed_alarms_responses
    (responses : List (Except ClientError (List Item))) :
    Option (List RegionAlarm) :=
(allSubscribedLoopE [] responses).map dictSortedValues

/-! Helper lemmas: ordering, sorting, set accumulation, store access. -/

theorem lexLe_total : ∀ as bs : List Char, lexLe as bs = true ∨ lexLe bs as = true := by
intro as
induction as with
| nil => intro bs; left; simp [lexLe]
| cons a as ih =>
  intro bs
  cases bs with
  | nil => right; simp [lexLe]
  | cons b bs =>
    by_cases hab : a < b
    · left; simp [lexLe, hab]
    · by_cases hba : b < a
      · right; simp [lexLe, hba]
      · rcases ih bs with h | h
        · left; simp [lexLe, hab, hba, h]
        · right; simp [lexLe, hab, hba, h]

theorem lexLe_trans :
    ∀ as bs cs : List Char,
      lexLe as bs = true → lexLe bs cs = true → lexLe as cs = true := by
intro as
induction as with
| nil => intro bs cs _ _; simp [lexLe]
| cons a as ih =>
  intro bs cs hab hbc
  cases bs with
  | nil => simp [lexLe] at hab
  | cons b bs =>
    cases cs with
    | nil => simp [lexLe] at hbc
    | cons c cs =>
      simp only [lexLe] at hab hbc ⊢
      by_cases h1 : a < b
      · by_cases h2 : b < c
        · simp [lt_trans h1 h2]
        · by_cases h3 : c < b
          · simp [h2, h3] at hbc
          · have hbc' : b = c := le_antisymm (not_lt.mp h3) (not_lt.mp h2)
            simp [hbc' ▸ h1]
      · by_cases h1' : b < a
        · simp [h1, h1'] at hab
        · have hab' : a = b := le_antisymm (not_lt.mp h1') (not_lt.mp h1)
          subst hab'
          by_cases h2 : a < c
          · simp [h2]
          · by_cases h3 : c < a
            · simp [h2, h3] at hbc
            · simp [h2, h3] at hbc ⊢
              exact ih bs cs (by simpa [lexLe, h1] using hab) hbc

theorem pyStrLe_trans :
    ∀ a b c : String, pyStrLe a b = true → pyStrLe b c = true → pyStrLe a c = true :=
fun a b c hab hbc => lexLe_trans a.data b.data c.data hab hbc

theorem pyStrLe_total : ∀ a b : String, (pyStrLe a b || pyStrLe b a) = true := by
intro a b
rcases lexLe_total a.data b.data with h | h <;> simp [pyStrLe, h]

theorem insertSorted_perm (x : String) (l : List String) :
    (insertSorted x l).Perm (x :: l) := by
induction l with
| nil => exact List.Perm.refl _
| cons y ys ih =>
  unfold insertSorted
  by_cases h : pyStrLe x y
  · rw [if_pos h]
  · rw [if_neg h]
    exact (List.Perm.cons y ih).trans (List.Perm.swap x y ys)

theorem sortStrings_perm (l : List String) : (sortStrings l).Perm l := by
induction l with
| nil => exact List.Perm.refl _
| cons a l ih =>
  exact (insertSorted_perm a (sortStrings l)).trans (List.Perm.cons a ih)

theorem mem_sortStrings {x : String} {l : List String} :
    x ∈ sortStrings l ↔ x ∈ l :=
(sortStrings_perm l).mem_iff

theorem insertSorted_pairwise {x : String} {l : List String}
    (h : l.Pairwise (fun a b => pyStrLe a b = true)) :
    (insertSorted x l).Pairwise (fun a b => pyStrLe a b = true) := by
induction l with
| nil => simp [insertSorted]
| cons y ys ih =>
  rcases List.pairwise_cons.mp h with ⟨hy, hys⟩
  unfold insertSorted
  by_cases hxy : pyStrLe x y
  · rw [if_pos hxy]
    refine List.Pairwise.cons ?_ h
    intro b hb
    rcases List.mem_cons.mp hb with rfl | hb2
    · exact hxy
    · exact pyStrLe_trans x y b hxy (hy b hb2)
  · rw [if_neg hxy]
    refine List.Pairwise.cons ?_ (ih hys)
    intro b hb
    have hb' : b ∈ x :: ys := (insertSorted_perm x ys).mem_iff.mp hb
    rcases List.mem_cons.mp hb' with hbx | hb2
    · have htot := pyStrLe_total x y
      rw [Bool.or_eq_true] at htot
      rcases htot with h1 | h1
      · exact absurd h1 hxy
      · rw [hbx]
        exact h1
    · exact hy b hb2

theorem sortStrings_pairwise (l : List String) :
    (sortStrings l).Pairwise (fun a b => pyStrLe a b = true) := by
induction l with
| nil => simp [sortStrings]
| cons a l ih => exact insertSorted_pairwise ih

theorem sortStrings_nodup {l : List String} (h : l.Nodup) :
    (sortStrings l).Nodup :=
((sortStrings_perm l).nodup_iff).mpr h

theorem mem_setInsert {x y : String} {l : List String} :
    x ∈ setInsert l y ↔ x ∈ l ∨ x = y := by
by_cases h : y ∈ l
· simp only [setInsert, if_pos h]
  constructor
  · exact fun hx => Or.inl hx
  · rintro (hx | rfl) <;> assumption
· simp [setInsert, if_neg h]

theorem setInsert_nodup {y : String} {l : List String} (h : l.Nodup) :
    (setInsert l y).Nodup := by
by_cases hy : y ∈ l
· simpa [setInsert, if_pos hy] using h
· simp only [setInsert, if_neg hy]
  refine List.Nodup.append h (List.nodup_singleton y) ?_
  intro a ha hay
  rw [List.mem_singleton] at hay
  subst hay
  exact hy ha

theorem mem_subscribersPage {x : String} :
    ∀ (items : List Item) (acc : List String),
      x ∈ subscribersPage acc items ↔
        x ∈ acc ∨ ∃ it ∈ items, getStrD it "ResourceArn" = x := by
intro items
induction items with
| nil => intro acc; simp [subscribersPage]
| cons it rest ih =>
  intro acc
  simp only [subscribersPage, List.foldl_cons] at *
  rw [ih (setInsert acc (getStrD it "ResourceArn"))]
  constructor
  · rintro (h | h)
    · rcases mem_setInsert.mp h with h' | h'
      · exact Or.inl h'
      · exact Or.inr ⟨it, List.mem_cons_self it rest, h'.symm⟩
    · rcases h with ⟨u, hu, hux⟩
      exact Or.inr ⟨u, List.mem_cons_of_mem it hu, hux⟩
  · rintro (h | ⟨u, hu, hux⟩)
    · exact Or.inl (mem_setInsert.mpr (Or.inl h))
    · rcases List.mem_cons.mp hu with rfl | hu'
      · exact Or.inl (mem_setInsert.mpr (Or.inr hux.symm))
      · exact Or.inr ⟨u, hu', hux⟩

theorem subscribersPage_nodup :
    ∀ (items : List Item) {acc : List String}, acc.Nodup →
      (subscribersPage acc items).Nodup := by
intro items
induction items with
| nil => intro acc h; simpa [subscribersPage] using h
| cons it rest ih =>
  intro acc h
  simp only [subscribersPage, List.foldl_cons]
  exact ih (setInsert_nodup h)

theorem foldl_subscribersPage (pages : List (List Item)) (acc : List String) :
    pages.foldl subscribersPage acc = subscribersPage acc pages.flatten := by
induction pages generalizing acc with
| nil => simp [subscribersPage]
| cons p ps ih =>
  simp only [List.foldl_cons, List.flatten_cons, subscribersPage,
    List.foldl_append]
  exact ih (List.foldl _ acc p)

theorem mem_queryEq {it : Item} {store : Store} {attr val : String} :
    it ∈ queryEq store attr val ↔ it ∈ store ∧ item_getStr it attr = some val := by
simp [queryEq, List.mem_filter]

theorem subItem_getStr_ran (ran arn : String) :
    item_getStr (subItem ran arn) "RegionAlarmName" = some ran := by
simp [subItem, item_getStr, dictGet]

theorem subItem_getStr_arn (ran arn : String) :
    item_getStr (subItem ran arn) "ResourceArn" = some arn := by
simp [subItem, item_getStr, dictGet]

theorem keyOf_subItem (ran arn : String) :
    keyOf (subItem ran arn) = some (ran, arn) := by
simp [keyOf, subItem_getStr_ran, subItem_getStr_arn]

theorem keyOf_eq_of_getStr {it : Item} {r a : String}
    (hr : item_getStr it "RegionAlarmName" = some r)
    (ha : item_getStr it "ResourceArn" = some a) :
    keyOf it = some (r, a) := by
simp [keyOf, hr, ha]

theorem mem_subscribers_to_alarm {x : String} {store : Store}
    {alarm_name region : String} :
    x ∈ subscribers_to_alarm store alarm_name region ↔
      ∃ it ∈ store,
        item_getStr it "RegionAlarmName" =
          some (unquote region ++ ":" ++ unquote alarm_name) ∧
        getStrD it "ResourceArn" = x := by
simp only [subscribers_to_alarm, subscribers_pages, mem_sortStrings,
  List.foldl_cons, List.foldl_nil]
rw [mem_subscribersPage]
constructor
· rintro (h | ⟨it, hit, hx⟩)
  · simp at h
  · rcases mem_queryEq.mp hit with ⟨hmem, hran⟩
    exact ⟨it, hmem, hran, hx⟩
· rintro ⟨it, hmem, hran, hx⟩
  exact Or.inr ⟨it, mem_queryEq.mpr ⟨hmem, hran⟩, hx⟩

/-- C1: after `subscribe(alarmName, region, [resourceArn])` succeeds,
`subscribersOf(alarmName, region)` includes `resourceArn`; after a subsequent
`unsubscribe(alarmName, region, [resourceArn])` succeeds, it no longer
includes `resourceArn`. -/
theorem C1_subscribe_then_unsubscribe (store : Store)
    (resourceArn alarmName region : String) (hwf : StoreWF store) :
    (subscribe_resource_to_alarm store alarmName region [resourceArn] none).2 = true ∧
    resourceArn ∈ subscribers_to_alarm
      (subscribe_resource_to_alarm store alarmName region [resourceArn] none).1
      alarmName region ∧
    (unsubscribe_resource_to_alarm
      (subscribe_resource_to_alarm store alarmName region [resourceArn] none).1
      alarmName region [resourceArn] none).2 = true ∧
    resourceArn ∉ subscribers_to_alarm
      (unsubscribe_resource_to_alarm
        (subscribe_resource_to_alarm store alarmName region [resourceArn] none).1
        alarmName region [resourceArn] none).1
      alarmName region := by
have hsub : subscribe_resource_to_alarm store alarmName region [resourceArn] none
    = (put_item store (subItem (unquote region ++ ":" ++ unquote alarmName) resourceArn),
       true) := by
  simp [subscribe_resource_to_alarm, subscribeLoop]
have huns : ∀ s : Store,
    unsubscribe_resource_to_alarm s alarmName region [resourceArn] none
      = (delete_item s (unquote region ++ ":" ++ unquote alarmName, resourceArn), true) := by
  intro s
  simp [unsubscribe_resource_to_alarm, unsubscribeLoop]
rw [hsub, huns]
refine ⟨rfl, ?_, rfl, ?_⟩
· refine mem_subscribers_to_alarm.mpr
    ⟨subItem (unquote region ++ ":" ++ unquote alarmName) resourceArn, ?_,
      subItem_getStr_ran _ _, ?_⟩
  · exact List.mem_append_right _ (List.mem_singleton_self _)
  · simp [getStrD, subItem_getStr_arn]
· intro hmem
  rcases mem_subscribers_to_alarm.mp hmem with ⟨it, hit, hran, harn⟩
  rcases List.mem_filter.mp hit with ⟨hit', hkey⟩
  rw [decide_eq_true_eq] at hkey
  rcases List.mem_append.mp hit' with hold | hnew
  · have hstore : it ∈ store := List.mem_of_mem_filter hold
    have hsomek : (keyOf it).isSome = true := hwf.1 it hstore
    cases ha : item_getStr it "ResourceArn" with
    | none => rw [keyOf, hran, ha] at hsomek; simp at hsomek
    | some a =>
      have : keyOf it = some (unquote region ++ ":" ++ unquote alarmName, a) :=
        keyOf_eq_of_getStr hran ha
      rw [getStrD, ha] at harn
      simp only [Option.getD_some] at harn
      exact hkey (by rw [this, harn])
  · rw [List.mem_singleton] at hnew
    subst hnew
    exact hkey (by rw [keyOf_subItem])

theorem C1_witness :
    (subscribe_resource_to_alarm [] "HighCPU" "us-east-1" ["arn:aws:r1"] none).2 = true ∧
    "arn:aws:r1" ∈ subscribers_to_alarm
      (subscribe_resource_to_alarm [] "HighCPU" "us-east-1" ["arn:aws:r1"] none).1
      "HighCPU" "us-east-1" ∧
    (unsubscribe_resource_to_alarm
      (subscribe_resource_to_alarm [] "HighCPU" "us-east-1" ["arn:aws:r1"] none).1
      "HighCPU" "us-east-1" ["arn:aws:r1"] none).2 = true ∧
    "arn:aws:r1" ∉ subscribers_to_alarm
      (unsubscribe_resource_to_alarm
        (subscribe_resource_to_alarm [] "HighCPU" "us-east-1" ["arn:aws:r1"] none).1
        "HighCPU" "us-east-1" ["arn:aws:r1"] none).1
      "HighCPU" "us-east-1" :=
C1_subscribe_then_unsubscribe [] "arn:aws:r1" "HighCPU" "us-east-1" (by decide)

/-! Dict lemmas and key reconstruction, used by the list-returning queries. -/

theorem dictGet_mem {β : Type} {d : List (String × β)} {k : String} {v : β}
    (h : dictGet d k = some v) : (k, v) ∈ d := by
induction d with
| nil => simp [dictGet] at h
| cons p rest ih =>
  obtain ⟨k0, v0⟩ := p
  by_cases hk : k0 = k
  · subst hk
    simp only [dictGet, if_true, eq_self_iff_true, Option.some.injEq] at h
    subst h
    exact List.mem_cons_self _ _
  · simp only [dictGet, if_neg hk] at h
    exact List.mem_cons_of_mem _ (ih h)

theorem dictGet_isSome_of_mem_keys {β : Type} {d : List (String × β)}
    {k : String} (h : k ∈ d.map Prod.fst) : (dictGet d k).isSome = true := by
induction d with
| nil => simp at h
| cons p rest ih =>
  obtain ⟨k0, v0⟩ := p
  by_cases hk : k0 = k
  · simp [dictGet, hk]
  · simp only [List.map_cons, List.mem_cons] at h
    rcases h with h | h
    · exact absurd h.symm hk
    · simpa [dictGet, hk] using ih h

theorem dictSet_keys {β : Type} (d : List (String × β)) (k : String) (v : β) :
    (dictSet d k v).map Prod.fst =
      if k ∈ d.map Prod.fst then d.map Prod.fst else d.map Prod.fst ++ [k] := by
unfold dictSet
split
· rw [List.map_map]
  apply List.map_congr_left
  intro p _
  by_cases hp : p.1 = k <;> simp [hp]
· simp

theorem dictSet_keys_nodup {β : Type} {d : List (String × β)} {k : String}
    {v : β} (h : (d.map Prod.fst).Nodup) :
    ((dictSet d k v).map Prod.fst).Nodup := by
rw [dictSet_keys]
split
· exact h
· next hk =>
  refine List.Nodup.append h (List.nodup_singleton k) ?_
  intro a ha hak
  rw [List.mem_singleton] at hak
  subst hak
  exact hk ha

theorem mem_dictSet {β : Type} {d : List (String × β)} {k : String} {v : β}
    {p : String × β} (h : p ∈ dictSet d k v) :
    p = (k, v) ∨ (p ∈ d ∧ p.1 ≠ k) := by
unfold dictSet at h
split at h
· rcases List.mem_map.mp h with ⟨q, hq, hpq⟩
  by_cases hqk : q.1 = k
  · left; rw [← hpq, if_pos hqk]
  · right
    rw [← hpq, if_neg hqk]
    exact ⟨hq, hqk⟩
· rcases List.mem_append.mp h with hd | hs
  · next hk =>
    right
    refine ⟨hd, ?_⟩
    intro hpk
    exact hk (hpk ▸ List.mem_map_of_mem Prod.fst hd)
  · left; exact List.mem_singleton.mp hs

theorem dictSet_forall {β : Type} {P : String × β → Prop}
    {d : List (String × β)} {k : String} {v : β}
    (hd : ∀ p ∈ d, P p) (hkv : P (k, v)) : ∀ p ∈ dictSet d k v, P p := by
intro p hp
rcases mem_dictSet hp with rfl | ⟨hmem, _⟩
· exact hkv
· exact hd p hmem

theorem map_dictSortedValues {β : Type} (f : β → String)
    {d : List (String × β)} (hco : ∀ p ∈ d, f p.2 = p.1) :
    (dictSortedValues d).map f = sortStrings (d.map Prod.fst) := by
unfold dictSortedValues
have main : ∀ ks : List String, (∀ k ∈ ks, k ∈ d.map Prod.fst) →
    (ks.filterMap (dictGet d)).map f = ks := by
  intro ks
  induction ks with
  | nil => intro _; simp
  | cons k ks ih =>
    intro hks
    have hk := hks k (List.mem_cons_self k ks)
    have hsome := dictGet_isSome_of_mem_keys hk
    cases hv : dictGet d k with
    | none => rw [hv] at hsome; simp at hsome
    | some v =>
      have hfv : f v = k := hco (k, v) (dictGet_mem hv)
      simp only [List.filterMap_cons, hv, List.map_cons, hfv]
      rw [ih (fun x hx => hks x (List.mem_cons_of_mem _ hx))]
exact main _ (fun k hk => mem_sortStrings.mp hk)

theorem splitFirstAux_eq_some :
    ∀ {cs a b : List Char}, splitFirstAux cs = some (a, b) →
      cs = a ++ ':' :: b := by
intro cs
induction cs with
| nil => intro a b h; simp [splitFirstAux] at h
| cons c rest ih =>
  intro a b h
  by_cases hc : c = ':'
  · subst hc
    simp only [splitFirstAux, if_pos rfl, Option.some.injEq, Prod.mk.injEq] at h
    obtain ⟨rfl, rfl⟩ := h
    simp
  · simp only [splitFirstAux, if_neg hc] at h
    cases hr : splitFirstAux rest with
    | none => rw [hr] at h; simp at h
    | some p =>
      obtain ⟨a1, b1⟩ := p
      rw [hr] at h
      simp only [Option.map_some', Option.some.injEq, Prod.mk.injEq] at h
      obtain ⟨rfl, rfl⟩ := h
      simp [ih hr]

theorem regionName_recon {s r n : String} (h : regionName s = some (r, n)) :
    r ++ ":" ++ n = s := by
unfold regionName split_maxsplit1 at h
cases hs : splitFirstAux s.data with
| none => rw [hs] at h; simp at h
| some p =>
  obtain ⟨a, b⟩ := p
  rw [hs] at h
  simp only [Option.some.injEq, Prod.mk.injEq] at h
  obtain ⟨rfl, rfl⟩ := h
  have hd := splitFirstAux_eq_some hs
  apply String.ext
  rw [String.data_append, String.data_append, hd]
  simp

theorem allSubscribedPage_append (l1 l2 : List Item) :
    ∀ acc, allSubscribedPage acc (l1 ++ l2)
      = (allSubscribedPage acc l1).bind (fun a => allSubscribedPage a l2) := by
induction l1 with
| nil => intro acc; simp [allSubscribedPage]
| cons it rest ih =>
  intro acc
  simp only [List.cons_append, allSubscribedPage]
  cases regionName (getStrD it "RegionAlarmName") with
  | none => simp
  | some p =>
    obtain ⟨r, n⟩ := p
    simp only []
    exact ih _

theorem allSubscribedPages_eq_flatten (pages : List (List Item)) :
    ∀ acc, allSubscribedPages pages acc = allSubscribedPage acc pages.flatten := by
induction pages with
| nil => intro acc; simp [allSubscribedPages, allSubscribedPage]
| cons p ps ih =>
  intro acc
  simp only [allSubscribedPages, List.flatten_cons, allSubscribedPage_append]
  cases h : allSubscribedPage acc p with
  | none => simp
  | some acc2 => simp [ih]

theorem allSubscribedPage_inv {items : List Item} :
    ∀ {acc d}, allSubscribedPage acc items = some d →
      (acc.map Prod.fst).Nodup →
      (∀ p ∈ acc, p.2.Region ++ ":" ++ p.2.AlarmName = p.1) →
      (d.map Prod.fst).Nodup ∧
        ∀ p ∈ d, p.2.Region ++ ":" ++ p.2.AlarmName = p.1 := by
induction items with
| nil =>
  intro acc d h hn hc
  simp only [allSubscribedPage, Option.some.injEq] at h
  subst h
  exact ⟨hn, hc⟩
| cons it rest ih =>
  intro acc d h hn hc
  simp only [allSubscribedPage] at h
  cases hr : regionName (getStrD it "RegionAlarmName") with
  | none => rw [hr] at h; simp at h
  | some p =>
    rw [hr] at h
    obtain ⟨r, n⟩ := p
    refine ih h (dictSet_keys_nodup hn) ?_
    exact dictSet_forall hc (regionName_recon hr)

/-- C4: for every store content and placement of pagination boundaries,
`subscribersOf` and `allSubscribedAlarms` return lists sorted
lexicographically by their key string with no duplicate keys, and any
repagination with the same concatenation of pages (in particular splitting
one page into two) returns the same list. -/
theorem C4_sorted_nodup_pagination_invariance :
    (∀ pages : List (List Item),
      (subscribers_pages pages).Pairwise (fun a b => pyStrLe a b = true) ∧
      (subscribers_pages pages).Nodup) ∧
    (∀ pages pages2 : List (List Item), pages.flatten = pages2.flatten →
      subscribers_pages pages = subscribers_pages pages2) ∧
    (∀ (pages : List (List Item)) (res : List RegionAlarm),
      all_subscribed_alarms pages = some res →
        ((res.map fun a => a.Region ++ ":" ++ a.AlarmName).Pairwise
          (fun a b => pyStrLe a b = true)) ∧
        (res.map fun a => a.Region ++ ":" ++ a.AlarmName).Nodup) ∧
    (∀ pages pages2 : List (List Item), pages.flatten = pages2.flatten →
      all_subscribed_alarms pages = all_subscribed_alarms pages2) := by
refine ⟨fun pages => ⟨?_, ?_⟩, fun pages pages2 hf => ?_, fun pages res h => ?_,
  fun pages pages2 hf => ?_⟩
· exact sortStrings_pairwise _
· refine sortStrings_nodup ?_
  rw [foldl_subscribersPage]
  exact subscribersPage_nodup _ List.nodup_nil
· unfold subscribers_pages
  rw [foldl_subscribersPage, foldl_subscribersPage, hf]
· unfold all_subscribed_alarms at h
  cases hd : allSubscribedPages pages [] with
  | none => rw [hd] at h; simp at h
  | some d =>
    rw [hd] at h
    simp only [Option.map_some', Option.some.injEq] at h
    subst h
    rw [allSubscribedPages_eq_flatten] at hd
    obtain ⟨hn, hc⟩ := allSubscribedPage_inv hd (by simp) (by simp)
    rw [map_dictSortedValues (fun a : RegionAlarm => a.Region ++ ":" ++ a.AlarmName) hc]
    exact ⟨sortStrings_pairwise _, sortStrings_nodup hn⟩
· unfold all_subscribed_alarms
  rw [allSubscribedPages_eq_flatten, allSubscribedPages_eq_flatten, hf]

theorem dictGet_append {β : Type} (d1 d2 : List (String × β)) (k : String) :
    dictGet (d1 ++ d2) k =
      match dictGet d1 k with
      | some v => some v
      | none => dictGet d2 k := by
induction d1 with
| nil => simp [dictGet]
| cons p rest ih =>
  obtain ⟨k0, v0⟩ := p
  by_cases h : k0 = k <;> simp [dictGet, h, ih]

theorem dictGet_of_not_mem_keys {β : Type} {d : List (String × β)} {k : String}
    (h : k ∉ d.map Prod.fst) : dictGet d k = none := by
induction d with
| nil => rfl
| cons p rest ih =>
  obtain ⟨k0, v0⟩ := p
  simp only [List.map_cons, List.mem_cons] at h
  push_neg at h
  simp [dictGet, Ne.symm h.1, ih h.2]

theorem dictGet_map_set {β : Type} {d : List (String × β)} {k : String} (v : β)
    (hmem : k ∈ d.map Prod.fst) :
    dictGet (d.map (fun p => if p.1 = k then (k, v) else p)) k = some v := by
induction d with
| nil => simp at hmem
| cons p rest ih =>
  obtain ⟨k0, v0⟩ := p
  simp only [List.map_cons]
  by_cases h : k0 = k
  · subst h
    rw [if_pos rfl]
    simp [dictGet]
  · rw [if_neg h]
    simp only [List.map_cons, List.mem_cons] at hmem
    rcases hmem with he | hmem2
    · exact absurd he.symm h
    · simp [dictGet, h, ih hmem2]

theorem dictGet_map_set_ne {β : Type} (d : List (String × β)) {k k2 : String}
    (v : β) (hne : k ≠ k2) :
    dictGet (d.map (fun p => if p.1 = k then (k, v) else p)) k2 = dictGet d k2 := by
induction d with
| nil => rfl
| cons p rest ih =>
  obtain ⟨k0, v0⟩ := p
  simp only [List.map_cons]
  by_cases h : k0 = k
  · subst h
    rw [if_pos rfl]
    simp [dictGet, hne, ih]
  · rw [if_neg h]
    by_cases h2 : k0 = k2 <;> simp [dictGet, h2, ih]

theorem dictGet_dictSet_self {β : Type} (d : List (String × β)) (k : String)
    (v : β) : dictGet (dictSet d k v) k = some v := by
unfold dictSet
split
· next hmem => exact dictGet_map_set v hmem
· next hmem =>
  rw [dictGet_append, dictGet_of_not_mem_keys hmem]
  simp [dictGet]

theorem dictGet_dictSet_ne {β : Type} (d : List (String × β)) {k k2 : String}
    (v : β) (hne : k ≠ k2) : dictGet (dictSet d k v) k2 = dictGet d k2 := by
unfold dictSet
split
· exact dictGet_map_set_ne d v hne
· rw [dictGet_append]
  cases hd : dictGet d k2 with
  | some w => rfl
  | none => simp [dictGet, hne]

theorem dictGet_dictPop_self {β : Type} (d : List (String × β)) (k : String) :
    dictGet (dictPop d k) k = none := by
induction d with
| nil => rfl
| cons p rest ih =>
  obtain ⟨k0, v0⟩ := p
  by_cases h : k0 = k
  · subst h; simpa [dictPop, List.filter_cons] using ih
  · simpa [dictPop, List.filter_cons, h, dictGet] using ih

theorem dictGet_dictPop_ne {β : Type} (d : List (String × β)) {k k2 : String}
    (hne : k2 ≠ k) : dictGet (dictPop d k) k2 = dictGet d k2 := by
induction d with
| nil => rfl
| cons p rest ih =>
  obtain ⟨k0, v0⟩ := p
  simp only [dictPop] at ih ⊢
  rw [List.filter_cons]
  by_cases h : k0 = k
  · subst h
    rw [if_neg (by simp)]
    rw [ih]
    simp [dictGet, Ne.symm hne]
  · rw [if_pos (by simp [h])]
    by_cases h2 : k0 = k2
    · subst h2; simp [dictGet]
    · simp only [dictGet, if_neg h2]
      exact ih

theorem alarmsForItem_fields (it : Item) (r n : String) :
    dictGet (alarmsForItem it r n) "ResourceArn" = none ∧
    dictGet (alarmsForItem it r n) "RegionAlarmName" = none ∧
    dictGet (alarmsForItem it r n) "Updated" = none ∧
    dictGet (alarmsForItem it r n) "Region" = some (.str r) ∧
    dictGet (alarmsForItem it r n) "AlarmName" = some (.str n) := by
simp only [alarmsForItem]
refine ⟨?_, ?_, ?_, ?_, ?_⟩
· rw [dictGet_dictPop_ne _ (by decide), dictGet_dictPop_ne _ (by decide),
    dictGet_dictPop_self]
· rw [dictGet_dictPop_ne _ (by decide), dictGet_dictPop_self]
· rw [dictGet_dictPop_self]
· rw [dictGet_dictPop_ne _ (by decide), dictGet_dictPop_ne _ (by decide),
    dictGet_dictPop_ne _ (by decide), dictGet_dictSet_ne _ _ (by decide),
    dictGet_dictSet_self]
· rw [dictGet_dictPop_ne _ (by decide), dictGet_dictPop_ne _ (by decide),
    dictGet_dictPop_ne _ (by decide), dictGet_dictSet_self]

theorem splitFirstAux_isSome_iff :
    ∀ cs : List Char, (splitFirstAux cs).isSome = true ↔ ':' ∈ cs := by
intro cs
induction cs with
| nil => simp [splitFirstAux]
| cons c rest ih =>
  by_cases hc : c = ':'
  · subst hc; simp [splitFirstAux]
  · have hmap : ((splitFirstAux rest).map
        (fun p => (c :: p.1, p.2))).isSome = (splitFirstAux rest).isSome := by
      cases splitFirstAux rest <;> rfl
    simp only [splitFirstAux, if_neg hc, hmap, ih, List.mem_cons]
    constructor
    · exact fun h => Or.inr h
    · rintro (h | h)
      · exact absurd h.symm hc
      · exact h

theorem regionName_isSome_iff (s : String) :
    (regionName s).isSome = true ↔ ':' ∈ s.data := by
rw [← splitFirstAux_isSome_iff]
unfold regionName split_maxsplit1
cases splitFirstAux s.data with
| none => simp
| some p => obtain ⟨a, b⟩ := p; simp

theorem allSubscribedPage_isSome_iff :
    ∀ (items : List Item) (acc : List (String × RegionAlarm)),
      (allSubscribedPage acc items).isSome = true ↔
        ∀ it ∈ items,
          (regionName (getStrD it "RegionAlarmName")).isSome = true := by
intro items
induction items with
| nil => intro acc; simp [allSubscribedPage]
| cons it rest ih =>
  intro acc
  simp only [allSubscribedPage]
  cases hr : regionName (getStrD it "RegionAlarmName") with
  | none =>
    constructor
    · intro h; simp at h
    · intro h
      have h2 := h it (List.mem_cons_self it rest)
      rw [hr] at h2
      simp at h2
  | some p =>
    obtain ⟨r, n⟩ := p
    rw [ih]
    constructor
    · intro h it2 hit2
      rcases List.mem_cons.mp hit2 with rfl | h2
      · rw [hr]; rfl
      · exact h it2 h2
    · intro h it2 hit2
      exact h it2 (List.mem_cons_of_mem it hit2)

theorem alarmsForPage_isSome_iff :
    ∀ (items : List Item) (acc : List (String × Item)),
      (alarmsForPage acc items).isSome = true ↔
        ∀ it ∈ items,
          (regionName (getStrD it "RegionAlarmName")).isSome = true := by
intro items
induction items with
| nil => intro acc; simp [alarmsForPage]
| cons it rest ih =>
  intro acc
  simp only [alarmsForPage]
  cases hr : regionName (getStrD it "RegionAlarmName") with
  | none =>
    constructor
    · intro h; simp at h
    · intro h
      have h2 := h it (List.mem_cons_self it rest)
      rw [hr] at h2
      simp at h2
  | some p =>
    obtain ⟨r, n⟩ := p
    rw [ih]
    constructor
    · intro h it2 hit2
      rcases List.mem_cons.mp hit2 with rfl | h2
      · rw [hr]; rfl
      · exact h it2 h2
    · intro h it2 hit2
      exact h it2 (List.mem_cons_of_mem it hit2)

theorem alarmsForPages_single (p : List Item) (acc : List (String × Item)) :
    alarmsForPages [p] acc = alarmsForPage acc p := by
cases h : alarmsForPage acc p <;> simp [alarmsForPages, h]

theorem allSubscribedPages_single (p : List Item)
    (acc : List (String × RegionAlarm)) :
    allSubscribedPages [p] acc = allSubscribedPage acc p := by
cases h : allSubscribedPage acc p <;> simp [allSubscribedPages, h]

/-- C10: `alarmsFor` and `allSubscribedAlarms` are total exactly on stores
where every `RegionAlarmName` they process contains a colon: an item whose
`RegionAlarmName` has no colon makes the access to the second split component
abort the whole operation (an uncaught index error, modelled by the `none`
result, not a caught store error). -/
theorem C10_colon_precondition :
    (∀ (store : Store) (resource_arn : String),
      (alarms_for_subscriber_store store resource_arn).isSome = true ↔
        ∀ it ∈ queryEq store "ResourceArn" (unquote resource_arn),
          ':' ∈ (getStrD it "RegionAlarmName").data) ∧
    (∀ store : Store,
      (all_subscribed_alarms_store store).isSome = true ↔
        ∀ it ∈ store, ':' ∈ (getStrD it "RegionAlarmName").data) := by
constructor
· intro store arn
  unfold alarms_for_subscriber_store alarms_for_subscriber
  rw [alarmsForPages_single]
  have hmap : ∀ o : Option (List (String × Item)),
      (o.map dictSortedValues).isSome = o.isSome := by
    intro o; cases o <;> rfl
  rw [hmap, alarmsForPage_isSome_iff]
  constructor
  · intro h it hit
    exact (regionName_isSome_iff _).mp (h it hit)
  · intro h it hit
    exact (regionName_isSome_iff _).mpr (h it hit)
· intro store
  unfold all_subscribed_alarms_store all_subscribed_alarms
  rw [allSubscribedPages_single]
  have hmap : ∀ o : Option (List (String × RegionAlarm)),
      (o.map dictSortedValues).isSome = o.isSome := by
    intro o; cases o <;> rfl
  rw [hmap, allSubscribedPage_isSome_iff]
  constructor
  · intro h it hit
    exact (regionName_isSome_iff _).mp (h it hit)
  · intro h it hit
    exact (regionName_isSome_iff _).mpr (h it hit)

theorem alarmsForPage_append (l1 l2 : List Item) :
    ∀ acc, alarmsForPage acc (l1 ++ l2)
      = (alarmsForPage acc l1).bind (fun a => alarmsForPage a l2) := by
induction l1 with
| nil => intro acc; simp [alarmsForPage]
| cons it rest ih =>
  intro acc
  simp only [List.cons_append, alarmsForPage]
  cases regionName (getStrD it "RegionAlarmName") with
  | none => simp
  | some p =>
    obtain ⟨r, n⟩ := p
    simp only []
    exact ih _

theorem alarmsForPages_eq_flatten (pages : List (List Item)) :
    ∀ acc, alarmsForPages pages acc = alarmsForPage acc pages.flatten := by
induction pages with
| nil => intro acc; simp [alarmsForPages, alarmsForPage]
| cons p ps ih =>
  intro acc
  simp only [alarmsForPages, List.flatten_cons, alarmsForPage_append]
  cases h : alarmsForPage acc p with
  | none => simp
  | some acc2 => simp [ih]

theorem alarmsForPage_keys {items : List Item} :
    ∀ {acc d}, alarmsForPage acc items = some d →
      d.map Prod.fst = items.foldl
        (fun ks it => setInsert ks (getStrD it "RegionAlarmName"))
        (acc.map Prod.fst) := by
induction items with
| nil =>
  intro acc d h
  simp only [alarmsForPage, Option.some.injEq] at h
  subst h
  simp
| cons it rest ih =>
  intro acc d h
  simp only [alarmsForPage] at h
  cases hr : regionName (getStrD it "RegionAlarmName") with
  | none => rw [hr] at h; simp at h
  | some p =>
    rw [hr] at h
    obtain ⟨r, n⟩ := p
    rw [List.foldl_cons, ih h]
    congr 1
    rw [dictSet_keys]
    rfl

theorem alarmsForPage_lookup {items : List Item} :
    ∀ {acc d}, alarmsForPage acc items = some d →
      ∀ k, dictGet d k =
        match lastItemWithRan items k with
        | some it => (regionName (getStrD it "RegionAlarmName")).map
            (fun p => alarmsForItem it p.1 p.2)
        | none => dictGet acc k := by
induction items with
| nil =>
  intro acc d h k
  simp only [alarmsForPage, Option.some.injEq] at h
  subst h
  rfl
| cons it rest ih =>
  intro acc d h k
  simp only [alarmsForPage] at h
  cases hr : regionName (getStrD it "RegionAlarmName") with
  | none => rw [hr] at h; simp at h
  | some p =>
    rw [hr] at h
    obtain ⟨r, n⟩ := p
    have hrec := ih h k
    simp only [lastItemWithRan]
    cases hlast : lastItemWithRan rest k with
    | some x =>
      rw [hrec, hlast]
    | none =>
      rw [hrec, hlast]
      by_cases hk : getStrD it "RegionAlarmName" = k
      · rw [if_pos hk]
        simp only [hr, Option.map_some']
        rw [hk, dictGet_dictSet_self]
      · rw [if_neg hk]
        exact dictGet_dictSet_ne acc _ hk

/-- C5: every entry of `alarmsFor` is the last stored item carrying its
`RegionAlarmName` (last-write-wins dedup), reshaped by splitting the key on
the first colon into added `Region` and `AlarmName` fields; the
`ResourceArn`, `RegionAlarmName` and `Updated` attributes are absent from
every entry; entries are returned sorted by `RegionAlarmName`, one per
distinct key. -/
theorem C5_alarms_for_subscriber_shape (pages : List (List Item))
    (res : List Item) (h : alarms_for_subscriber pages = some res) :
    res = (sortStrings (firstDedup
        (pages.flatten.map (fun it => getStrD it "RegionAlarmName")))).filterMap
        (fun ran => (lastItemWithRan pages.flatten ran).bind
          (fun it => (regionName (getStrD it "RegionAlarmName")).map
            (fun p => alarmsForItem it p.1 p.2))) ∧
    ∀ e ∈ res,
      dictGet e "ResourceArn" = none ∧
      dictGet e "RegionAlarmName" = none ∧
      dictGet e "Updated" = none := by
unfold alarms_for_subscriber at h
cases hd : alarmsForPages pages [] with
| none => rw [hd] at h; simp at h
| some d =>
  rw [hd] at h
  simp only [Option.map_some', Option.some.injEq] at h
  subst h
  rw [alarmsForPages_eq_flatten] at hd
  have hkeys := alarmsForPage_keys hd
  have hlook := alarmsForPage_lookup hd
  have hchar : dictSortedValues d = (sortStrings (firstDedup
      (pages.flatten.map (fun it => getStrD it "RegionAlarmName")))).filterMap
      (fun ran => (lastItemWithRan pages.flatten ran).bind
        (fun it => (regionName (getStrD it "RegionAlarmName")).map
          (fun p => alarmsForItem it p.1 p.2))) := by
    unfold dictSortedValues
    rw [hkeys]
    have hfold : pages.flatten.foldl
        (fun ks it => setInsert ks (getStrD it "RegionAlarmName"))
        (([] : List (String × Item)).map Prod.fst)
        = firstDedup (pages.flatten.map (fun it => getStrD it "RegionAlarmName")) := by
      rw [firstDedup, List.foldl_map]
      rfl
    rw [hfold]
    congr 1
    funext ran
    rw [hlook ran]
    cases lastItemWithRan pages.flatten ran with
    | none => rfl
    | some it => rfl
  refine ⟨hchar, ?_⟩
  intro e he
  rw [hchar] at he
  rcases List.mem_filterMap.mp he with ⟨ran, _, hsome⟩
  cases hlast : lastItemWithRan pages.flatten ran with
  | none => rw [hlast] at hsome; simp at hsome
  | some it =>
    rw [hlast] at hsome
    rw [Option.some_bind] at hsome
    cases hr : regionName (getStrD it "RegionAlarmName") with
    | none => rw [hr] at hsome; simp at hsome
    | some p =>
      rw [hr] at hsome
      simp only [Option.map_some', Option.some.injEq] at hsome
      subst hsome
      obtain ⟨f1, f2, f3, _, _⟩ := alarmsForItem_fields it p.1 p.2
      exact ⟨f1, f2, f3⟩

theorem C5_witness :
    ([[("StateValue", AttrVal.str "OK"),
       ("Region", AttrVal.str "us-east-1"),
       ("AlarmName", AttrVal.str "HighCPU")]] : List Item)
      = (sortStrings (firstDedup
          (([[[("RegionAlarmName", AttrVal.str "us-east-1:HighCPU"),
               ("ResourceArn", AttrVal.str "arn:r1"),
               ("StateValue", AttrVal.str "OK"),
               ("Updated", AttrVal.int 7)]]] : List (List Item)).flatten.map
            (fun it => getStrD it "RegionAlarmName")))).filterMap
          (fun ran => (lastItemWithRan
              ([[[("RegionAlarmName", AttrVal.str "us-east-1:HighCPU"),
                  ("ResourceArn", AttrVal.str "arn:r1"),
                  ("StateValue", AttrVal.str "OK"),
                  ("Updated", AttrVal.int 7)]]] : List (List Item)).flatten ran).bind
            (fun it => (regionName (getStrD it "RegionAlarmName")).map
              (fun p => alarmsForItem it p.1 p.2))) ∧
    ∀ e ∈ ([[("StateValue", AttrVal.str "OK"),
             ("Region", AttrVal.str "us-east-1"),
             ("AlarmName", AttrVal.str "HighCPU")]] : List Item),
      dictGet e "ResourceArn" = none ∧
      dictGet e "RegionAlarmName" = none ∧
      dictGet e "Updated" = none :=
C5_alarms_for_subscriber_shape
  [[[("RegionAlarmName", AttrVal.str "us-east-1:HighCPU"),
     ("ResourceArn", AttrVal.str "arn:r1"),
     ("StateValue", AttrVal.str "OK"),
     ("Updated", AttrVal.int 7)]]]
  [[("StateValue", AttrVal.str "OK"),
    ("Region", AttrVal.str "us-east-1"),
    ("AlarmName", AttrVal.str "HighCPU")]]
  (by decide)

/-! Lemmas for `subscribed_with_state`: the counting dict in closed form. -/

theorem mem_foldl_setInsert {x : String} :
    ∀ (l : List String) (acc : List String),
      x ∈ l.foldl setInsert acc ↔ x ∈ acc ∨ x ∈ l := by
intro l
induction l with
| nil => intro acc; simp
| cons a l ih =>
  intro acc
  rw [List.foldl_cons, ih, mem_setInsert, List.mem_cons]
  tauto

theorem mem_firstDedup {x : String} {l : List String} :
    x ∈ firstDedup l ↔ x ∈ l := by
rw [firstDedup, mem_foldl_setInsert]
simp

theorem firstDedup_nodup (l : List String) : (firstDedup l).Nodup := by
have main : ∀ (l acc : List String), acc.Nodup → (l.foldl setInsert acc).Nodup := by
  intro l
  induction l with
  | nil => intro acc h; simpa using h
  | cons a l ih => intro acc h; exact ih _ (setInsert_nodup h)
exact main l [] List.nodup_nil

theorem firstDedup_append_single (p : List String) (x : String) :
    firstDedup (p ++ [x]) = setInsert (firstDedup p) x := by
rw [firstDedup, firstDedup, List.foldl_append]
rfl

theorem dictGet_map_key {β : Type} (f : String → β) (l : List String)
    (k : String) :
    dictGet (l.map (fun r => (r, f r))) k
      = if k ∈ l then some (f k) else none := by
induction l with
| nil => simp [dictGet]
| cons a l ih =>
  by_cases h : a = k
  · subst h; simp [dictGet]
  · have hka : ¬ k = a := fun he => h he.symm
    simp only [List.map_cons, dictGet, if_neg h, ih, List.mem_cons]
    by_cases hk : k ∈ l
    · simp [hk]
    · simp [hk, hka]

theorem dictSet_map_key {β : Type} (f : String → β) (l : List String)
    (k : String) (v : β) (hmem : k ∈ l) :
    dictSet (l.map (fun r => (r, f r))) k v
      = l.map (fun r => (r, if r = k then v else f r)) := by
unfold dictSet
rw [if_pos (by simpa using hmem)]
rw [List.map_map]
apply List.map_congr_left
intro r _
by_cases h : r = k
· subst h; simp
· simp [h]

theorem swsStep_dictForm (p : List String) (it : Item) :
    swsStep ((firstDedup p).map
      (fun r => (r, (⟨r, p.count r⟩ : SWSEntry)))) it
      = (firstDedup (p ++ [getStrD it "ResourceArn"])).map
          (fun r => (r, (⟨r, (p ++ [getStrD it "ResourceArn"]).count r⟩
            : SWSEntry))) := by
have hget := dictGet_map_key
  (fun r => (⟨r, p.count r⟩ : SWSEntry)) (firstDedup p) (getStrD it "ResourceArn")
rw [firstDedup_append_single]
by_cases hmem : getStrD it "ResourceArn" ∈ firstDedup p
· rw [if_pos hmem] at hget
  simp only [swsStep, hget]
  rw [dictSet_map_key _ _ _ _ hmem]
  rw [setInsert, if_pos hmem]
  apply List.map_congr_left
  intro r hr
  by_cases hra : r = getStrD it "ResourceArn"
  · subst hra
    simp [List.count_append, List.count_cons]
  · have hcnt : List.count r [getStrD it "ResourceArn"] = 0 := by
      simp [List.count_cons, List.count_nil]
      exact fun he => hra he.symm
    simp only [if_neg hra, Prod.mk.injEq, true_and, List.count_append, hcnt,
      Nat.add_zero]
· rw [if_neg hmem] at hget
  simp only [swsStep, hget]
  rw [setInsert, if_neg hmem]
  unfold dictSet
  rw [if_neg (by simpa using hmem)]
  rw [List.map_append]
  congr 1
  · apply List.map_congr_left
    intro r hr
    have hra : r ≠ getStrD it "ResourceArn" := fun h => hmem (h ▸ hr)
    have hcnt : List.count r [getStrD it "ResourceArn"] = 0 := by
      simp [List.count_cons, List.count_nil]
      exact fun he => hra he.symm
    simp [List.count_append, hcnt]
  · have hnp : getStrD it "ResourceArn" ∉ p := fun h => hmem (mem_firstDedup.mpr h)
    have hcnt0 : List.count (getStrD it "ResourceArn") p = 0 :=
      List.count_eq_zero.mpr hnp
    simp [List.count_append, hcnt0, List.count_cons]

theorem swsFold_dict (items : List Item) :
    ∀ p : List String,
      items.foldl swsStep ((firstDedup p).map
        (fun r => (r, (⟨r, p.count r⟩ : SWSEntry))))
        = (firstDedup (p ++ items.map (fun it => getStrD it "ResourceArn"))).map
            (fun r => (r,
              (⟨r, (p ++ items.map (fun it => getStrD it "ResourceArn")).count r⟩
                : SWSEntry))) := by
induction items with
| nil => intro p; simp
| cons it rest ih =>
  intro p
  rw [List.foldl_cons, swsStep_dictForm, ih (p ++ [getStrD it "ResourceArn"])]
  simp [List.append_assoc]

/-- C6: `subscribersByState(s)` returns exactly one entry per distinct
`ResourceArn` having at least one subscription whose `StateValue` is `s`,
with `AlarmCount` the number of that resource's subscriptions in state `s`
(the `ResourceArn` values of the `StateValue` index query). -/
theorem C6_subscribed_with_state_counts (store : Store) (alarm_state : String) :
    (∀ r : String,
      ((subscribed_with_state store alarm_state).filter
          (fun e => decide (e.ResourceArn = r))).length
        = if r ∈ (queryEq store "StateValue" (unquote alarm_state)).map
              (fun it => getStrD it "ResourceArn")
          then 1 else 0) ∧
    (∀ e ∈ subscribed_with_state store alarm_state,
      e.AlarmCount
          = ((queryEq store "StateValue" (unquote alarm_state)).map
              (fun it => getStrD it "ResourceArn")).count e.ResourceArn ∧
        0 < e.AlarmCount) := by
have hclosed : subscribed_with_state store alarm_state
    = (firstDedup ((queryEq store "StateValue" (unquote alarm_state)).map
        (fun it => getStrD it "ResourceArn"))).map
        (fun r => (⟨r, ((queryEq store "StateValue" (unquote alarm_state)).map
          (fun it => getStrD it "ResourceArn")).count r⟩ : SWSEntry)) := by
  show ((queryEq store "StateValue" (unquote alarm_state)).foldl swsStep []).map
      Prod.snd = _
  have h0 := swsFold_dict (queryEq store "StateValue" (unquote alarm_state)) []
  simp only [firstDedup, List.foldl_nil, List.map_nil, List.count_nil,
    List.nil_append] at h0
  rw [h0, List.map_map]
  rfl
constructor
· intro r
  rw [hclosed, List.filter_map, List.length_map]
  have hfilter : (firstDedup ((queryEq store "StateValue" (unquote alarm_state)).map
      (fun it => getStrD it "ResourceArn"))).filter
      ((fun e : SWSEntry => decide (e.ResourceArn = r)) ∘
        (fun x => (⟨x, ((queryEq store "StateValue" (unquote alarm_state)).map
          (fun it => getStrD it "ResourceArn")).count x⟩ : SWSEntry)))
      = (firstDedup ((queryEq store "StateValue" (unquote alarm_state)).map
          (fun it => getStrD it "ResourceArn"))).filter
          (fun x => x == r) := by
    apply List.filter_congr
    intro x _
    show decide (x = r) = (x == r)
    by_cases hx : x = r
    · simp [hx]
    · simp [hx, beq_iff_eq]
  rw [hfilter]
  have hlen : ∀ l : List String, (l.filter (fun x => x == r)).length = l.count r := by
    intro l
    rw [List.count, List.countP_eq_length_filter]
  rw [hlen]
  by_cases hmem : r ∈ (queryEq store "StateValue" (unquote alarm_state)).map
      (fun it => getStrD it "ResourceArn")
  · rw [if_pos hmem]
    exact List.count_eq_one_of_mem (firstDedup_nodup _) (mem_firstDedup.mpr hmem)
  · rw [if_neg hmem]
    exact List.count_eq_zero.mpr (fun h => hmem (mem_firstDedup.mp h))
· intro e he
  rw [hclosed] at he
  rcases List.mem_map.mp he with ⟨r, hr, hre⟩
  subst hre
  refine ⟨rfl, ?_⟩
  rw [List.count_pos_iff]
  exact mem_firstDedup.mp hr

/-! Lemmas for notification ingestion. -/

theorem keyOf_newAlarmItem (ran arn sv ns : String) (ts updated : Int) :
    keyOf (newAlarmItem ran arn sv ns ts updated) = some (ran, arn) := by
simp [keyOf, newAlarmItem, item_getStr, dictGet]

theorem storeLookup_put (s : Store) (it : Item) (k : StoreKey) :
    storeLookup (put_item s it) k
      = if keyOf it = some k then some it else storeLookup s k := by
unfold storeLookup put_item
rw [List.filter_append]
by_cases h : keyOf it = some k
· rw [if_pos h]
  have hfit : List.filter (fun o => decide (keyOf o = some k)) [it] = [it] := by
    simp [List.filter_cons, h]
  rw [hfit, List.getLast?_concat]
· rw [if_neg h]
  have hfit : List.filter (fun o => decide (keyOf o = some k)) [it] = [] := by
    simp [List.filter_cons, h]
  rw [hfit, List.append_nil]
  congr 1
  rw [List.filter_filter]
  apply List.filter_congr
  intro o _
  by_cases ho : keyOf o = some k
  · have h2 : ¬ some k = keyOf it := fun he => h he.symm
    simp [ho, h2]
  · simp [ho]

theorem putAlarmItems_lookup {ran sv ns sct : String} {updated ts : Int}
    (hts : strptimeEpoch sct = some ts) :
    ∀ (subs : List String) (store : Store) (cnt : Nat),
      ∃ st2, putAlarmItems ran sv ns sct updated store cnt none subs
          = some (st2, cnt + subs.length, false) ∧
        ∀ k : StoreKey, storeLookup st2 k =
          if k.1 = ran ∧ k.2 ∈ subs
          then some (newAlarmItem ran k.2 sv ns ts updated)
          else storeLookup store k := by
intro subs
induction subs with
| nil =>
  intro store cnt
  refine ⟨store, by simp [putAlarmItems], ?_⟩
  intro k
  rw [if_neg (by simp)]
| cons arn rest ih =>
  intro store cnt
  obtain ⟨st2, heq, hlook⟩ :=
    ih (put_item store (newAlarmItem ran arn sv ns ts updated)) (cnt + 1)
  refine ⟨st2, ?_, ?_⟩
  · simp only [putAlarmItems, hts]
    rw [if_neg (by simp)]
    rw [heq]
    have harith : cnt + 1 + rest.length = cnt + (rest.length + 1) := by omega
    rw [harith]
    rfl
  · intro k
    obtain ⟨k1, k2⟩ := k
    rw [hlook (k1, k2), storeLookup_put, keyOf_newAlarmItem]
    by_cases h1 : k1 = ran
    · subst h1
      by_cases h2 : k2 ∈ rest
      · rw [if_pos (by exact ⟨rfl, h2⟩), if_pos (by exact ⟨rfl, List.mem_cons_of_mem arn h2⟩)]
      · rw [if_neg (by simp [h2])]
        by_cases h3 : k2 = arn
        · subst h3
          rw [if_pos (by rfl), if_pos ⟨rfl, List.mem_cons_self _ _⟩]
        · rw [if_neg (by simp [Ne.symm h3]), if_neg (by simp [h3, h2])]
    · rw [if_neg (by simp [h1])]
      rw [if_neg ?hpair, if_neg (by simp [h1])]
      case hpair =>
        simp only [Option.some.injEq, Prod.mk.injEq]
        intro hpair
        exact absurd hpair.1.symm h1

theorem putAlarmItems_isSome {ran sv ns sct : String} {updated ts : Int}
    (hts : strptimeEpoch sct = some ts) :
    ∀ (subs : List String) (store : Store) (cnt : Nat) (failAt : Option Nat),
      ∃ st2 cnt2 raised,
        putAlarmItems ran sv ns sct updated store cnt failAt subs
          = some (st2, cnt2, raised) := by
intro subs
induction subs with
| nil => intro store cnt failAt; exact ⟨store, cnt, false, rfl⟩
| cons arn rest ih =>
  intro store cnt failAt
  simp only [putAlarmItems, hts]
  by_cases h : failAt = some cnt
  · exact ⟨store, cnt, true, by rw [if_pos h]⟩
  · obtain ⟨st2, cnt2, raised, heq⟩ :=
      ih (put_item store (newAlarmItem ran arn sv ns ts updated)) (cnt + 1) failAt
    exact ⟨st2, cnt2, raised, by rw [if_neg h]; exact heq⟩

/-- C2: ingestion of a notification record computes the region as the
colon-delimited field at index 3 of the record's subscription identifier, and
for every current subscriber of `region:AlarmName` overwrites that
subscriber's full record with exactly `RegionAlarmName`, `ResourceArn`,
`StateValue = NewStateValue`, `Namespace = Trigger.Namespace`,
`StateUpdated` = the epoch seconds parsed from `StateChangeTime`, and
`Updated` = the ingestion-time epoch seconds; no other key's record
changes. -/
theorem C2_ingest_record_overwrites (store : Store) (rec : SnsRecord)
    (updated ts : Int) (region : String)
    (hreg : (pySplitColon rec.EventSubscriptionArn)[3]? = some region)
    (hts : strptimeEpoch rec.message.StateChangeTime = some ts) :
    ∃ st2, incoming_cloudwatch_alarm store [rec] updated none = some (st2, true) ∧
      (∀ arn ∈ subscribers_to_alarm store rec.message.AlarmName region,
        storeLookup st2 (region ++ ":" ++ rec.message.AlarmName, arn)
          = some (newAlarmItem (region ++ ":" ++ rec.message.AlarmName) arn
              rec.message.NewStateValue rec.message.TriggerNamespace ts updated)) ∧
      (∀ k : StoreKey,
        k.1 ≠ region ++ ":" ++ rec.message.AlarmName ∨
          k.2 ∉ subscribers_to_alarm store rec.message.AlarmName region →
        storeLookup st2 k = storeLookup store k) := by
obtain ⟨st2, heq, hlook⟩ :=
  @putAlarmItems_lookup (region ++ ":" ++ rec.message.AlarmName)
    rec.message.NewStateValue rec.message.TriggerNamespace
    rec.message.StateChangeTime updated ts hts
    (subscribers_to_alarm store rec.message.AlarmName region) store 0
refine ⟨st2, ?_, ?_, ?_⟩
· unfold incoming_cloudwatch_alarm
  simp only [ingestRecords, hreg, heq]
  rfl
· intro arn hmem
  rw [hlook (region ++ ":" ++ rec.message.AlarmName, arn)]
  rw [if_pos ⟨rfl, hmem⟩]
· intro k hk
  rw [hlook k]
  rw [if_neg ?_]
  rcases hk with hk | hk
  · exact fun hc => hk hc.1
  · exact fun hc => hk hc.2

theorem C2_witness :
    ∃ st2, incoming_cloudwatch_alarm
        [[("RegionAlarmName", AttrVal.str "us-east-1:HighCPU"),
          ("ResourceArn", AttrVal.str "arn:r1")]]
        [⟨"arn:aws:sns:us-east-1:123:topic",
          ⟨"HighCPU", "ALARM", "AWS/EC2", "2021-06-01T12:00:00.123456+0000"⟩⟩]
        1622550000 none = some (st2, true) ∧
      (∀ arn ∈ subscribers_to_alarm
          [[("RegionAlarmName", AttrVal.str "us-east-1:HighCPU"),
            ("ResourceArn", AttrVal.str "arn:r1")]] "HighCPU" "us-east-1",
        storeLookup st2 ("us-east-1" ++ ":" ++ "HighCPU", arn)
          = some (newAlarmItem ("us-east-1" ++ ":" ++ "HighCPU") arn
              "ALARM" "AWS/EC2" 1622548800 1622550000)) ∧
      (∀ k : StoreKey,
        k.1 ≠ "us-east-1" ++ ":" ++ "HighCPU" ∨
          k.2 ∉ subscribers_to_alarm
            [[("RegionAlarmName", AttrVal.str "us-east-1:HighCPU"),
              ("ResourceArn", AttrVal.str "arn:r1")]] "HighCPU" "us-east-1" →
        storeLookup st2 k = storeLookup
          [[("RegionAlarmName", AttrVal.str "us-east-1:HighCPU"),
            ("ResourceArn", AttrVal.str "arn:r1")]] k) :=
C2_ingest_record_overwrites
  [[("RegionAlarmName", AttrVal.str "us-east-1:HighCPU"),
    ("ResourceArn", AttrVal.str "arn:r1")]]
  ⟨"arn:aws:sns:us-east-1:123:topic",
    ⟨"HighCPU", "ALARM", "AWS/EC2", "2021-06-01T12:00:00.123456+0000"⟩⟩
  1622550000 1622548800 "us-east-1" (by decide) (by decide)

theorem ingestRecords_isSome {updated : Int} :
    ∀ (records : List SnsRecord) (store : Store) (cnt : Nat)
      (failAt : Option Nat),
      (∀ rec ∈ records, (∃ region,
          (pySplitColon rec.EventSubscriptionArn)[3]? = some region) ∧
        ∃ ts, strptimeEpoch rec.message.StateChangeTime = some ts) →
      ∃ st2, ingestRecords updated store cnt failAt records
        = some (st2, true) := by
intro records
induction records with
| nil => intro store cnt failAt _; exact ⟨store, rfl⟩
| cons rec rest ih =>
  intro store cnt failAt hwfb
  obtain ⟨⟨region, hreg⟩, ts, hts⟩ := hwfb rec (List.mem_cons_self rec rest)
  obtain ⟨st2, cnt2, raised, heq⟩ :=
    @putAlarmItems_isSome (region ++ ":" ++ rec.message.AlarmName)
      rec.message.NewStateValue rec.message.TriggerNamespace
      rec.message.StateChangeTime updated ts hts
      (subscribers_to_alarm store rec.message.AlarmName region) store cnt failAt
  simp only [ingestRecords, hreg, heq]
  cases raised with
  | true => exact ⟨st2, rfl⟩
  | false =>
    obtain ⟨st3, heq3⟩ := ih st2 cnt2 failAt
      (fun r hr => hwfb r (List.mem_cons_of_mem rec hr))
    refine ⟨st3, ?_⟩
    rw [if_neg (by simp)]
    exact heq3

/-- C7: the notification-ingestion entry point returns the fixed success
indicator `True`: with zero current subscribers it performs zero store writes
and returns `True`; for every contract-conforming batch and any store-error
schedule it returns `True`; and a store error on the first put abandons the
remaining records of the batch, leaving the store as it was, still returning
`True`. -/
theorem C7_ingestion_always_true :
    (∀ (store : Store) (rec : SnsRecord) (updated : Int) (failAt : Option Nat)
        (region : String),
      (pySplitColon rec.EventSubscriptionArn)[3]? = some region →
      subscribers_to_alarm store rec.message.AlarmName region = [] →
      incoming_cloudwatch_alarm store [rec] updated failAt = some (store, true)) ∧
    (∀ (store : Store) (records : List SnsRecord) (updated : Int)
        (failAt : Option Nat),
      (∀ rec ∈ records, (∃ region,
          (pySplitColon rec.EventSubscriptionArn)[3]? = some region) ∧
        ∃ ts, strptimeEpoch rec.message.StateChangeTime = some ts) →
      ∃ st2, incoming_cloudwatch_alarm store records updated failAt
        = some (st2, true)) ∧
    (∀ (store : Store) (rec : SnsRecord) (rest : List SnsRecord) (updated : Int)
        (region : String),
      (pySplitColon rec.EventSubscriptionArn)[3]? = some region →
      strptimeEpoch rec.message.StateChangeTime ≠ none →
      subscribers_to_alarm store rec.message.AlarmName region ≠ [] →
      incoming_cloudwatch_alarm store (rec :: rest) updated (some 0)
        = some (store, true)) := by
refine ⟨?_, ?_, ?_⟩
· intro store rec updated failAt region hreg hsubs
  unfold incoming_cloudwatch_alarm
  simp only [ingestRecords, hreg, hsubs, putAlarmItems]
  rfl
· intro store records updated failAt hwfb
  exact ingestRecords_isSome records store 0 failAt hwfb
· intro store rec rest updated region hreg htsne hsubs
  obtain ⟨ts, hts⟩ := Option.ne_none_iff_exists'.mp htsne
  obtain ⟨arn, subs2, hsubs2⟩ := List.exists_cons_of_ne_nil hsubs
  unfold incoming_cloudwatch_alarm
  simp only [ingestRecords, hreg, hsubs2, putAlarmItems, hts]
  rfl

theorem C7_witness :
    incoming_cloudwatch_alarm []
      [⟨"arn:aws:sns:us-east-1:123:topic",
        ⟨"HighCPU", "ALARM", "AWS/EC2", "2021-06-01T12:00:00.123456+0000"⟩⟩]
      1622550000 none = some ([], true) :=
C7_ingestion_always_true.1 []
  ⟨"arn:aws:sns:us-east-1:123:topic",
    ⟨"HighCPU", "ALARM", "AWS/EC2", "2021-06-01T12:00:00.123456+0000"⟩⟩
  1622550000 none "us-east-1" (by decide) (by decide)

/-! Lemmas for ingestion idempotence: keys, well-formedness, characterization. -/

theorem keyOf_eq_some {it : Item} {r a : String} :
    keyOf it = some (r, a) ↔
      item_getStr it "RegionAlarmName" = some r ∧
        item_getStr it "ResourceArn" = some a := by
unfold keyOf
cases h1 : item_getStr it "RegionAlarmName" <;>
  cases h2 : item_getStr it "ResourceArn" <;> simp

theorem mem_keysList {s : Store} {k : StoreKey} :
    k ∈ keysList s ↔ ∃ it ∈ s, keyOf it = some k := by
unfold keysList
exact List.mem_filterMap

theorem mem_subscribers_iff_keys {store : Store}
    (hattr : ∀ it ∈ store, (keyOf it).isSome = true)
    {alarm_name region arn : String} :
    arn ∈ subscribers_to_alarm store alarm_name region ↔
      (unquote region ++ ":" ++ unquote alarm_name, arn) ∈ keysList store := by
rw [mem_subscribers_to_alarm, mem_keysList]
constructor
· rintro ⟨it, hit, hran, harn⟩
  have hs := hattr it hit
  cases ha : item_getStr it "ResourceArn" with
  | none => rw [keyOf, hran, ha] at hs; simp at hs
  | some a =>
    rw [getStrD, ha, Option.getD_some] at harn
    subst harn
    exact ⟨it, hit, keyOf_eq_of_getStr hran ha⟩
· rintro ⟨it, hit, hkey⟩
  rcases keyOf_eq_some.mp hkey with ⟨hran, harn⟩
  exact ⟨it, hit, hran, by rw [getStrD, harn, Option.getD_some]⟩

theorem mem_keysList_put {s : Store} {it : Item} {kit : StoreKey}
    (hit : keyOf it = some kit) (hmem : kit ∈ keysList s) :
    ∀ k, k ∈ keysList (put_item s it) ↔ k ∈ keysList s := by
intro k
have hsing : List.filterMap keyOf [it] = [kit] := by
  simp [List.filterMap_cons, hit]
unfold keysList put_item
rw [List.filterMap_append, hsing]
simp only [List.mem_append, List.mem_singleton]
constructor
· rintro (h | rfl)
  · rcases List.mem_filterMap.mp h with ⟨o, ho, hko⟩
    exact List.mem_filterMap.mpr ⟨o, List.mem_of_mem_filter ho, hko⟩
  · exact hmem
· intro h
  rcases List.mem_filterMap.mp h with ⟨o, ho, hko⟩
  by_cases hsame : keyOf o = keyOf it
  · right
    rw [hsame, hit] at hko
    exact (Option.some.injEq .. ▸ hko : kit = k).symm
  · left
    exact List.mem_filterMap.mpr
      ⟨o, List.mem_filter.mpr ⟨ho, by simpa using hsame⟩, hko⟩

theorem StoreWF_put {s : Store} {it : Item} (hwf : StoreWF s)
    (hit : (keyOf it).isSome = true) : StoreWF (put_item s it) := by
obtain ⟨kit, hkit⟩ := Option.isSome_iff_exists.mp hit
constructor
· intro o ho
  rcases List.mem_append.mp ho with h | h
  · exact hwf.1 o (List.mem_of_mem_filter h)
  · rw [List.mem_singleton.mp h, hkit]; rfl
· show (List.filterMap keyOf _).Nodup
  unfold put_item
  rw [List.filterMap_append]
  have hsing : List.filterMap keyOf [it] = [kit] := by
    simp [List.filterMap_cons, hkit]
  rw [hsing]
  refine List.Nodup.append ?_ (List.nodup_singleton kit) ?_
  · exact List.Nodup.sublist
      (List.Sublist.filterMap keyOf (List.filter_sublist s)) hwf.2
  · intro x hx hx2
    rw [List.mem_singleton] at hx2
    subst hx2
    rcases List.mem_filterMap.mp hx with ⟨o, ho, hko⟩
    have hne := List.mem_filter.mp ho
    rw [decide_eq_true_eq] at hne
    exact hne.2 (by rw [hko, hkit])

theorem putAlarmItems_keys {ran sv ns sct : String} {updated ts : Int}
    (hts : strptimeEpoch sct = some ts) :
    ∀ (subs : List String) (s : Store) (cnt : Nat),
      (∀ arn ∈ subs, (ran, arn) ∈ keysList s) → StoreWF s →
      ∃ s2, putAlarmItems ran sv ns sct updated s cnt none subs
          = some (s2, cnt + subs.length, false) ∧
        StoreWF s2 ∧ (∀ k, k ∈ keysList s2 ↔ k ∈ keysList s) := by
intro subs
induction subs with
| nil =>
  intro s cnt _ hwf
  exact ⟨s, by simp [putAlarmItems], hwf, fun k => Iff.rfl⟩
| cons arn rest ih =>
  intro s cnt hmem hwf
  have hput := mem_keysList_put (keyOf_newAlarmItem ran arn sv ns ts updated)
    (hmem arn (List.mem_cons_self arn rest))
  obtain ⟨s2, heq, hwf2, hkeys2⟩ :=
    ih (put_item s (newAlarmItem ran arn sv ns ts updated)) (cnt + 1)
      (fun a ha => (hput (ran, a)).mpr (hmem a (List.mem_cons_of_mem arn ha)))
      (StoreWF_put hwf (by rw [keyOf_newAlarmItem]; rfl))
  refine ⟨s2, ?_, hwf2, fun k => (hkeys2 k).trans (hput k)⟩
  simp only [putAlarmItems, hts]
  rw [if_neg (by simp)]
  rw [heq]
  have harith : cnt + 1 + rest.length = cnt + (rest.length + 1) := by omega
  rw [harith]
  rfl

theorem lastWriterItem_congr {ks1 ks2 : List StoreKey}
    (h : ∀ k', k' ∈ ks1 ↔ k' ∈ ks2) (updated : Int) (k : StoreKey) :
    ∀ records, lastWriterItem ks1 updated k records
      = lastWriterItem ks2 updated k records := by
intro records
induction records with
| nil => rfl
| cons rec rest ih =>
  simp only [lastWriterItem, ih]
  cases lastWriterItem ks2 updated k rest with
  | some x => rfl
  | none =>
    have hiff : writesK ks1 rec k ↔ writesK ks2 rec k := by
      unfold writesK
      rw [h k]
    by_cases hw : writesK ks2 rec k
    · rw [if_pos (hiff.mpr hw), if_pos hw]
    · rw [if_neg (fun hc => hw (hiff.mp hc)), if_neg hw]

theorem ingestRecords_characterize {updated : Int} :
    ∀ (records : List SnsRecord),
      (∀ rec ∈ records,
        ((pySplitColon rec.EventSubscriptionArn)[3]?).isSome = true ∧
        unquote (((pySplitColon rec.EventSubscriptionArn)[3]?).getD "")
          = ((pySplitColon rec.EventSubscriptionArn)[3]?).getD "" ∧
        unquote rec.message.AlarmName = rec.message.AlarmName ∧
        (strptimeEpoch rec.message.StateChangeTime).isSome = true) →
      ∀ (s : Store) (cnt : Nat), StoreWF s →
      ∃ s2, ingestRecords updated s cnt none records = some (s2, true) ∧
        StoreWF s2 ∧ (∀ k, k ∈ keysList s2 ↔ k ∈ keysList s) ∧
        ∀ k, storeLookup s2 k =
          match lastWriterItem (keysList s) updated k records with
          | some x => some x
          | none => storeLookup s k := by
intro records
induction records with
| nil =>
  intro _ s cnt hwf
  exact ⟨s, rfl, hwf, fun k => Iff.rfl, fun k => rfl⟩
| cons rec rest ih =>
  intro hok s cnt hwf
  obtain ⟨hregS, hrq, hnq, htsS⟩ := hok rec (List.mem_cons_self rec rest)
  obtain ⟨region, hreg⟩ := Option.isSome_iff_exists.mp hregS
  obtain ⟨ts, hts⟩ := Option.isSome_iff_exists.mp htsS
  rw [hreg] at hrq
  simp only [Option.getD_some] at hrq
  have hranOf : ranOfRec rec = region ++ ":" ++ rec.message.AlarmName := by
    unfold ranOfRec
    rw [hreg]
    rfl
  have hsubs_keys : ∀ arn, arn ∈ subscribers_to_alarm s rec.message.AlarmName region ↔
      (region ++ ":" ++ rec.message.AlarmName, arn) ∈ keysList s := by
    intro arn
    have h0 := @mem_subscribers_iff_keys s hwf.1 rec.message.AlarmName region arn
    rw [hrq, hnq] at h0
    exact h0
  obtain ⟨s1, heq1, hlook1⟩ :=
    @putAlarmItems_lookup (region ++ ":" ++ rec.message.AlarmName)
      rec.message.NewStateValue rec.message.TriggerNamespace
      rec.message.StateChangeTime updated ts hts
      (subscribers_to_alarm s rec.message.AlarmName region) s cnt
  obtain ⟨s1b, heq1b, hwf1, hkeys1⟩ :=
    @putAlarmItems_keys (region ++ ":" ++ rec.message.AlarmName)
      rec.message.NewStateValue rec.message.TriggerNamespace
      rec.message.StateChangeTime updated ts hts
      (subscribers_to_alarm s rec.message.AlarmName region) s cnt
      (fun arn ha => (hsubs_keys arn).mp ha) hwf
  have hsame : s1b = s1 := by
    rw [heq1] at heq1b
    have h2 := Option.some.inj heq1b
    exact (Prod.mk.injEq .. ▸ h2).1.symm
  subst hsame
  obtain ⟨s2, heqR, hwf2, hkeys2, hlook2⟩ :=
    ih (fun r hr => hok r (List.mem_cons_of_mem rec hr))
      s1b (cnt + (subscribers_to_alarm s rec.message.AlarmName region).length) hwf1
  refine ⟨s2, ?_, hwf2, fun k => (hkeys2 k).trans (hkeys1 k), ?_⟩
  · simp only [ingestRecords, hreg, heq1]
    rw [if_neg (by simp)]
    exact heqR
  · intro k
    rw [hlook2 k, lastWriterItem_congr hkeys1 updated k rest]
    simp only [lastWriterItem]
    cases hlw : lastWriterItem (keysList s) updated k rest with
    | some x => rfl
    | none =>
      rw [hlook1 k]
      by_cases hw : writesK (keysList s) rec k
      · rw [if_pos hw]
        obtain ⟨hw1, hw2⟩ := hw
        have hk1 : k.1 = region ++ ":" ++ rec.message.AlarmName := by
          rw [← hw1, hranOf]
        have hcond : k.1 = region ++ ":" ++ rec.message.AlarmName ∧
            k.2 ∈ subscribers_to_alarm s rec.message.AlarmName region := by
          refine ⟨hk1, (hsubs_keys k.2).mpr ?_⟩
          have hpk : (region ++ ":" ++ rec.message.AlarmName, k.2) = k := by
            rw [← hk1]
          rw [hpk]
          exact hw2
        rw [if_pos hcond]
        unfold recItem
        rw [hk1, hts]
        rfl
      · rw [if_neg hw]
        rw [if_neg ?_]
        rintro ⟨hc1, hc2⟩
        apply hw
        refine ⟨by rw [hranOf, hc1], ?_⟩
        have hpk : (region ++ ":" ++ rec.message.AlarmName, k.2) = k := by
          rw [← hc1]
        rw [← hpk]
        exact (hsubs_keys k.2).mp hc2

/-- C3 as stated is false: `Updated` records the ingestion-time clock, so
re-ingesting the identical batch at a later epoch second changes the stored
`Updated` field.  Concretely: one subscriber to `us-east-1:HighCPU`, the
same notification ingested at time 0 and re-ingested at time 1 leaves the
record different from the state after the first ingestion. -/
theorem C3_counterexample :
    ∃ s1 s2,
      incoming_cloudwatch_alarm
        [[("RegionAlarmName", AttrVal.str "us-east-1:HighCPU"),
          ("ResourceArn", AttrVal.str "arn:r1")]]
        [⟨"arn:aws:sns:us-east-1:123:topic",
          ⟨"HighCPU", "ALARM", "AWS/EC2", "2021-06-01T12:00:00.123456+0000"⟩⟩]
        0 none = some (s1, true) ∧
      incoming_cloudwatch_alarm s1
        [⟨"arn:aws:sns:us-east-1:123:topic",
          ⟨"HighCPU", "ALARM", "AWS/EC2", "2021-06-01T12:00:00.123456+0000"⟩⟩]
        1 none = some (s2, true) ∧
      storeLookup s2 ("us-east-1:HighCPU", "arn:r1")
        ≠ storeLookup s1 ("us-east-1:HighCPU", "arn:r1") :=
⟨[newAlarmItem "us-east-1:HighCPU" "arn:r1" "ALARM" "AWS/EC2" 1622548800 0],
 [newAlarmItem "us-east-1:HighCPU" "arn:r1" "ALARM" "AWS/EC2" 1622548800 1],
 by decide, by decide, by decide⟩

/-- C3 amended: re-ingesting the identical batch at the same ingestion-time
epoch second (for records whose alarm name and region are unchanged by
percent-decoding, which the subscriber lookup applies but the write does not)
leaves every stored record's every field equal to the state after the first
ingestion. -/
theorem C3_same_time_idempotent (store : Store) (records : List SnsRecord)
    (updated : Int) (hwf : StoreWF store)
    (hok : ∀ rec ∈ records,
      ((pySplitColon rec.EventSubscriptionArn)[3]?).isSome = true ∧
      unquote (((pySplitColon rec.EventSubscriptionArn)[3]?).getD "")
        = ((pySplitColon rec.EventSubscriptionArn)[3]?).getD "" ∧
      unquote rec.message.AlarmName = rec.message.AlarmName ∧
      (strptimeEpoch rec.message.StateChangeTime).isSome = true) :
    ∃ s1 s2,
      incoming_cloudwatch_alarm store records updated none = some (s1, true) ∧
      incoming_cloudwatch_alarm s1 records updated none = some (s2, true) ∧
      ∀ k, storeLookup s2 k = storeLookup s1 k := by
obtain ⟨s1, he1, hwf1, hkeys1, hlook1⟩ :=
  ingestRecords_characterize records hok store 0 hwf
obtain ⟨s2, he2, _, _, hlook2⟩ :=
  ingestRecords_characterize records hok s1 0 hwf1
refine ⟨s1, s2, he1, he2, ?_⟩
intro k
rw [hlook2 k, lastWriterItem_congr hkeys1 updated k records, hlook1 k]
cases lastWriterItem (keysList store) updated k records with
| some x => rfl
| none => rfl

theorem C3_witness :
    ∃ s1 s2,
      incoming_cloudwatch_alarm
        [[("RegionAlarmName", AttrVal.str "us-east-1:HighCPU"),
          ("ResourceArn", AttrVal.str "arn:r1")]]
        [⟨"arn:aws:sns:us-east-1:123:topic",
          ⟨"HighCPU", "ALARM", "AWS/EC2", "2021-06-01T12:00:00.123456+0000"⟩⟩]
        7 none = some (s1, true) ∧
      incoming_cloudwatch_alarm s1
        [⟨"arn:aws:sns:us-east-1:123:topic",
          ⟨"HighCPU", "ALARM", "AWS/EC2", "2021-06-01T12:00:00.123456+0000"⟩⟩]
        7 none = some (s2, true) ∧
      ∀ k, storeLookup s2 k = storeLookup s1 k :=
C3_same_time_idempotent
  [[("RegionAlarmName", AttrVal.str "us-east-1:HighCPU"),
    ("ResourceArn", AttrVal.str "arn:r1")]]
  [⟨"arn:aws:sns:us-east-1:123:topic",
    ⟨"HighCPU", "ALARM", "AWS/EC2", "2021-06-01T12:00:00.123456+0000"⟩⟩]
  7 (by decide) (by decide)

/-! Error-handling lemmas for the write loops and the paginated alarm
listing. -/

theorem subscribeLoop_fail :
    ∀ (resources : List String) (store : Store) (ran : String) (k : Nat),
      k < resources.length →
      (subscribeLoop store ran (some k) resources).2 = false := by
intro resources
induction resources with
| nil => intro store ran k hk; simp at hk
| cons arn rest ih =>
  intro store ran k hk
  cases k with
  | zero => simp [subscribeLoop]
  | succ k2 =>
    have hne : ¬ ((some (k2 + 1) : Option Nat) = some 0) := by simp
    simp only [subscribeLoop, if_neg hne, Option.map_some', Nat.add_sub_cancel]
    exact ih _ ran k2 (by simpa using hk)

theorem unsubscribeLoop_fail :
    ∀ (resources : List String) (store : Store) (ran : String) (k : Nat),
      k < resources.length →
      (unsubscribeLoop store ran (some k) resources).2 = false := by
intro resources
induction resources with
| nil => intro store ran k hk; simp at hk
| cons arn rest ih =>
  intro store ran k hk
  cases k with
  | zero => simp [unsubscribeLoop]
  | succ k2 =>
    have hne : ¬ ((some (k2 + 1) : Option Nat) = some 0) := by simp
    simp only [unsubscribeLoop, if_neg hne, Option.map_some', Nat.add_sub_cancel]
    exact ih _ ran k2 (by simpa using hk)

/-- C8 counterexample: `get_cloudwatch_events_state` performs its store query
with no try/except, so a store error is re-raised to the caller unchanged —
refuting "the error is caught and converted to an empty result or a false
return, and is never propagated as an exception to the caller". -/
theorem C8_counterexample :
    get_cloudwatch_events_state (Except.error ⟨"AccessDenied"⟩)
      = Except.error ⟨"AccessDenied"⟩ := rfl

theorem cwAlarmsLoop_ok_pages :
    ∀ (okpages : List (List RawAlarm)) (acc : List FilteredAlarm)
      (rest : List CWResponse) (e : ClientError),
      cwAlarmsLoop acc
        (okpages.map (fun p => (Except.ok (some p, true) : CWResponse))
          ++ Except.error e :: rest)
        = acc ++ okpages.flatten.map filtered_alarm := by
intro okpages
induction okpages with
| nil => intro acc rest e; simp [cwAlarmsLoop]
| cons p ps ih =>
  intro acc rest e
  simp only [List.map_cons, List.cons_append, cwAlarmsLoop, Option.getD_some,
    if_true, List.append_eq]
  rw [ih]
  simp [List.append_assoc]

theorem subscribersLoopE_ok_pages :
    ∀ (okpages : List (List Item)) (acc : List String)
      (rest : List (Except ClientError (List Item))) (e : ClientError),
      subscribersLoopE acc
        (okpages.map (fun p => (Except.ok p : Except ClientError (List Item)))
          ++ Except.error e :: rest)
        = okpages.foldl subscribersPage acc := by
intro okpages
induction okpages with
| nil => intro acc rest e; rfl
| cons p ps ih =>
  intro acc rest e
  simp only [List.map_cons, List.cons_append, subscribersLoopE, List.foldl_cons]
  exact ih _ rest e

theorem swsLoopE_ok_pages :
    ∀ (okpages : List (List Item)) (d : List (String × SWSEntry))
      (rest : List (Except ClientError (List Item))) (e : ClientError),
      swsLoopE d
        (okpages.map (fun p => (Except.ok p : Except ClientError (List Item)))
          ++ Except.error e :: rest)
        = okpages.foldl swsPage d := by
intro okpages
induction okpages with
| nil => intro d rest e; rfl
| cons p ps ih =>
  intro d rest e
  simp only [List.map_cons, List.cons_append, swsLoopE, List.foldl_cons]
  exact ih _ rest e

theorem alarmsForLoopE_ok_pages :
    ∀ (okpages : List (List Item)) (acc : List (String × Item))
      (rest : List (Except ClientError (List Item))) (e : ClientError),
      alarmsForLoopE acc
        (okpages.map (fun p => (Except.ok p : Except ClientError (List Item)))
          ++ Except.error e :: rest)
        = alarmsForPages okpages acc := by
intro okpages
induction okpages with
| nil => intro acc rest e; rfl
| cons p ps ih =>
  intro acc rest e
  simp only [List.map_cons, List.cons_append, alarmsForLoopE, alarmsForPages]
  cases alarmsForPage acc p with
  | none => rfl
  | some acc2 => exact ih acc2 rest e

theorem allSubscribedLoopE_ok_pages :
    ∀ (okpages : List (List Item)) (acc : List (String × RegionAlarm))
      (rest : List (Except ClientError (List Item))) (e : ClientError),
      allSubscribedLoopE acc
        (okpages.map (fun p => (Except.ok p : Except ClientError (List Item)))
          ++ Except.error e :: rest)
        = allSubscribedPages okpages acc := by
intro okpages
induction okpages with
| nil => intro acc rest e; rfl
| cons p ps ih =>
  intro acc rest e
  simp only [List.map_cons, List.cons_append, allSubscribedLoopE,
    allSubscribedPages]
  cases allSubscribedPage acc p with
  | none => rfl
  | some acc2 => exact ih acc2 rest e

/-- C8 amended: every operation that wraps its store calls in a try/except
handler catches a raised store error and converts it — the write batches
return `False`, and each list query returns the result computed from the
pages consumed before the error (empty when the error is on the first call,
a partial result otherwise), never an exception; only
`get_cloudwatch_events_state`, which has no handler, propagates the store
error to its caller. -/
theorem C8_error_conversion_except_events :
    (∀ (store : Store) (alarm_name region : String) (resources : List String)
        (k : Nat), k < resources.length →
      (subscribe_resource_to_alarm store alarm_name region resources (some k)).2
        = false) ∧
    (∀ (store : Store) (alarm_name region : String) (resources : List String)
        (k : Nat), k < resources.length →
      (unsubscribe_resource_to_alarm store alarm_name region resources
        (some k)).2 = false) ∧
    (∀ (okpages : List (List Item)) (e : ClientError)
        (rest : List (Except ClientError (List Item))),
      subscribers_to_alarm_responses
        (okpages.map (fun p => (Except.ok p : Except ClientError (List Item)))
          ++ Except.error e :: rest)
        = subscribers_pages okpages) ∧
    (∀ (okpages : List (List Item)) (e : ClientError)
        (rest : List (Except ClientError (List Item))),
      subscribed_with_state_responses
        (okpages.map (fun p => (Except.ok p : Except ClientError (List Item)))
          ++ Except.error e :: rest)
        = subscribed_with_state_pages okpages) ∧
    (∀ (okpages : List (List Item)) (e : ClientError)
        (rest : List (Except ClientError (List Item))),
      alarms_for_subscriber_responses
        (okpages.map (fun p => (Except.ok p : Except ClientError (List Item)))
          ++ Except.error e :: rest)
        = alarms_for_subscriber okpages) ∧
    (∀ (okpages : List (List Item)) (e : ClientError)
        (rest : List (Except ClientError (List Item))),
      all_subscribed_alarms_responses
        (okpages.map (fun p => (Except.ok p : Except ClientError (List Item)))
          ++ Except.error e :: rest)
        = all_subscribed_alarms okpages) ∧
    (∀ (okpages : List (List RawAlarm)) (e : ClientError)
        (rest : List CWResponse),
      get_cloudwatch_alarms_region
        (okpages.map (fun p => (Except.ok (some p, true) : CWResponse))
          ++ Except.error e :: rest)
        = okpages.flatten.map filtered_alarm) ∧
    (∀ e : ClientError,
      get_cloudwatch_events_state (Except.error e) = Except.error e) := by
refine ⟨?_, ?_, ?_, ?_, ?_, ?_, ?_, fun e => rfl⟩
· intro store alarm_name region resources k hk
  exact subscribeLoop_fail resources store _ k hk
· intro store alarm_name region resources k hk
  exact unsubscribeLoop_fail resources store _ k hk
· intro okpages e rest
  unfold subscribers_to_alarm_responses subscribers_pages
  rw [subscribersLoopE_ok_pages]
· intro okpages e rest
  unfold subscribed_with_state_responses subscribed_with_state_pages
  rw [swsLoopE_ok_pages]
· intro okpages e rest
  unfold alarms_for_subscriber_responses alarms_for_subscriber
  rw [alarmsForLoopE_ok_pages]
· intro okpages e rest
  unfold all_subscribed_alarms_responses all_subscribed_alarms
  rw [allSubscribedLoopE_ok_pages]
· intro okpages e rest
  unfold get_cloudwatch_alarms_region
  rw [cwAlarmsLoop_ok_pages]
  rfl

/-- C9 counterexample: a store/service error on a continuation page does not
yield the empty list — the alarms collected from the pages before the error
are returned. -/
theorem C9_counterexample :
    get_cloudwatch_alarms_region
      [Except.ok (some [⟨"arn:a", "HighCPU", "CPUUtilization", "AWS/EC2",
          "ALARM", 1622548800⟩], true),
       Except.error ⟨"Throttled"⟩] ≠ [] := by decide

/-- C9 amended: an error on the first `describe_alarms` call yields the empty
list; an error on a continuation call yields the alarms reshaped from the
pages already consumed (a possibly non-empty prefix), never an exception. -/
theorem C9_error_partial_results :
    (∀ (e : ClientError) (rest : List CWResponse),
      get_cloudwatch_alarms_region (Except.error e :: rest) = []) ∧
    (∀ (okpages : List (List RawAlarm)) (e : ClientError)
        (rest : List CWResponse),
      get_cloudwatch_alarms_region
        (okpages.map (fun p => (Except.ok (some p, true) : CWResponse))
          ++ Except.error e :: rest)
        = okpages.flatten.map filtered_alarm) := by
constructor
· intro e rest
  rfl
· intro okpages e rest
  unfold get_cloudwatch_alarms_region
  rw [cwAlarmsLoop_ok_pages]
  rfl

end Cloudwatch
